import Mathlib

/-!
# Verification of the RTT benchmark client (`main.go`)

Shallow embedding of `createRequest`, `parseResponse`, `benchmark`, `init` and the
broker set-up performed by `main`, together with the parts of `encoding/json` and
`github.com/google/uuid` that these functions call.

Conventions of the embedding

* Go strings and byte slices are sequences of Unicode code points (`String`,
  `List Char`): bodies and labels are restricted to valid UTF-8.
* `json.Unmarshal` is a syntax check of the whole body followed by the decoding of the
  parsed value into the struct; `json.Marshal` escapes strings as `appendString` does
  with HTML escaping (backspace and form feed as two-character escapes).
* `time.Duration` values are integers (nanoseconds); the clock, the results of the
  publishes and the deliveries are input streams (`Env`).
* A run is observed step by step; it starts after `ch.Consume` has succeeded.  The
  target count and the decoder are parameters of the loop: the program is the instance
  with `SAMPLES_SIZE` and `parseResponse` (`benchmark`).
* The statistics are computed over `ℚ`; the argument of `math.Sqrt` is kept exact.
-/

namespace RTTClient

/-! ## JSON text: the scanner of `encoding/json` -/

/-- A parsed JSON text.  Numbers keep their literal; object members keep their order
and their duplicates, as the decoder of `encoding/json` visits them one by one. -/
inductive JSON where
  | null
  | bool (b : Bool)
  | num (lit : List Char)
  | str (s : String)
  | arr (elems : List JSON)
  | obj (members : List (String × JSON))

/-- Values of the Go interface type `error` produced by the calls modelled here. -/
inductive GoError where
  /-- Value of type `*json.SyntaxError`: the body is not a JSON text. -/
  | syntaxError
  /-- Value of type `*json.UnmarshalTypeError`; `field` is the struct field being
  decoded (empty at the top level). -/
  | unmarshalTypeError (field : String)
  /-- Error returned by `ch.PublishWithContext`. -/
  | publishError (reason : String)
  deriving DecidableEq, Repr

/-- Limit on nested arrays and objects in `encoding/json` (`maxNestingDepth`). -/
def maxNestingDepth : Nat := 10000

/-- White space of the JSON grammar (`isSpace` in `scanner.go`). -/
def isSpace (c : Char) : Bool :=
  c == ' ' || c == '\t' || c == '\r' || c == '\n'

/-- Drop leading white space. -/
def skipSpace : List Char → List Char
  | [] => []
  | c :: cs => if isSpace c then skipSpace cs else c :: cs

/-- Value of a hexadecimal digit, either case (`getu4` in `decode.go`). -/
def hexValue (c : Char) : Option Nat :=
  if '0' ≤ c ∧ c ≤ '9' then some (c.toNat - '0'.toNat)
  else if 'a' ≤ c ∧ c ≤ 'f' then some (c.toNat - 'a'.toNat + 10)
  else if 'A' ≤ c ∧ c ≤ 'F' then some (c.toNat - 'A'.toNat + 10)
  else none

/-- Decode `\uXXXX` at the head of the input (`getu4`): the code unit and the rest. -/
def getu4 : List Char → Option (Nat × List Char)
  | '\\' :: 'u' :: a :: b :: c :: d :: rest =>
    match hexValue a, hexValue b, hexValue c, hexValue d with
    | some x, some y, some z, some w => some (((x * 16 + y) * 16 + z) * 16 + w, rest)
    | _, _, _, _ => none
  | _ => none

/-- UTF-16 surrogate range test (`utf16.IsSurrogate`). -/
def isSurrogate (r : Nat) : Bool := 0xD800 ≤ r && r < 0xE000

/-- Combine a surrogate pair (`utf16.DecodeRune`); `none` stands for U+FFFD. -/
def decodeSurrogates (r1 r2 : Nat) : Option Nat :=
  if 0xD800 ≤ r1 ∧ r1 < 0xDC00 ∧ 0xDC00 ≤ r2 ∧ r2 < 0xE000 then
    some ((r1 - 0xD800) * 0x400 + (r2 - 0xDC00) + 0x10000)
  else none

/-- The replacement character U+FFFD. -/
def replacementChar : Char := Char.ofNat 0xFFFD

/-- Scan and unquote a string literal after its opening quote: the decoded text and
the input after the closing quote.  Control characters and unknown escapes are syntax
errors; an unpaired surrogate escape becomes U+FFFD (`unquoteBytes`). -/
def parseStringBody : Nat → List Char → Option (List Char × List Char)
  | 0, _ => none
  | _ + 1, [] => none
  | fuel + 1, c :: cs =>
    if c = '"' then some ([], cs)
    else if c = '\\' then
      match cs with
      | [] => none
      | e :: rest =>
        if e = 'u' then
          match getu4 (c :: cs) with
          | none => none
          | some (rr, rest4) =>
            if isSurrogate rr then
              match getu4 rest4 with
              | some (rr1, rest8) =>
                match decodeSurrogates rr rr1 with
                | some dec =>
                  (parseStringBody fuel rest8).map fun p => (Char.ofNat dec :: p.1, p.2)
                | none =>
                  (parseStringBody fuel rest4).map fun p => (replacementChar :: p.1, p.2)
              | none =>
                (parseStringBody fuel rest4).map fun p => (replacementChar :: p.1, p.2)
            else
              (parseStringBody fuel rest4).map fun p => (Char.ofNat rr :: p.1, p.2)
        else
          let plain : Option Char :=
            if e = '"' then some '"'
            else if e = '\\' then some '\\'
            else if e = '/' then some '/'
            else if e = 'b' then some (Char.ofNat 8)
            else if e = 'f' then some (Char.ofNat 12)
            else if e = 'n' then some '\n'
            else if e = 'r' then some '\r'
            else if e = 't' then some '\t'
            else none
          match plain with
          | none => none
          | some x => (parseStringBody fuel rest).map fun p => (x :: p.1, p.2)
    else if c.toNat < 0x20 then none
    else (parseStringBody fuel cs).map fun p => (c :: p.1, p.2)

/-- Decimal digit test. -/
def isDigit (c : Char) : Bool := '0' ≤ c && c ≤ '9'

/-- Split off the longest run of decimal digits. -/
def takeDigits : List Char → List Char × List Char
  | [] => ([], [])
  | c :: cs =>
    if isDigit c then ((takeDigits cs).1.cons c, (takeDigits cs).2) else ([], c :: cs)

/-- Scan a number literal: optional minus, integer part without a leading zero unless
it is the single digit zero, optional fraction, optional exponent. -/
def parseNumber (cs : List Char) : Option (List Char × List Char) :=
  let sign : List Char × List Char :=
    match cs with
    | '-' :: r => (['-'], r)
    | _ => ([], cs)
  let intPart : Option (List Char × List Char) :=
    match sign.2 with
    | [] => none
    | d :: r =>
      if d = '0' then some (['0'], r)
      else if isDigit d then some (d :: (takeDigits r).1, (takeDigits r).2)
      else none
  match intPart with
  | none => none
  | some (ip, afterInt) =>
    let frac : Option (List Char × List Char) :=
      match afterInt with
      | '.' :: r =>
        if (takeDigits r).1 = [] then none else some ('.' :: (takeDigits r).1, (takeDigits r).2)
      | _ => some ([], afterInt)
    match frac with
    | none => none
    | some (fp, afterFrac) =>
      let expo : Option (List Char × List Char) :=
        match afterFrac with
        | e :: r =>
          if e = 'e' ∨ e = 'E' then
            let sg : List Char × List Char :=
              match r with
              | s :: r2 => if s = '+' ∨ s = '-' then ([s], r2) else ([], r)
              | [] => ([], r)
            if (takeDigits sg.2).1 = [] then none
            else some (e :: sg.1 ++ (takeDigits sg.2).1, (takeDigits sg.2).2)
          else some ([], afterFrac)
        | [] => some ([], afterFrac)
      match expo with
      | none => none
      | some (ep, rest) => some (sign.1 ++ ip ++ fp ++ ep, rest)

/-- Remove the given characters from the head of the input, if they are there. -/
def dropLiteral : List Char → List Char → Option (List Char)
  | [], cs => some cs
  | _ :: _, [] => none
  | l :: ls, c :: cs => if l = c then dropLiteral ls cs else none

mutual
/-- Scan one JSON value at the head of the input (no leading white space). -/
def parseValue : Nat → Nat → List Char → Option (JSON × List Char)
  | 0, _, _ => none
  | fuel + 1, depth, cs =>
    match cs with
    | [] => none
    | c :: rest =>
      if c = '{' then
        if maxNestingDepth ≤ depth then none
        else
          match skipSpace rest with
          | [] => none
          | d :: rest2 =>
            if d = '}' then some (JSON.obj [], rest2)
            else
              (parseMembers fuel (depth + 1) (d :: rest2)).map fun p => (JSON.obj p.1, p.2)
      else if c = '[' then
        if maxNestingDepth ≤ depth then none
        else
          match skipSpace rest with
          | [] => none
          | d :: rest2 =>
            if d = ']' then some (JSON.arr [], rest2)
            else
              (parseElements fuel (depth + 1) (d :: rest2)).map fun p => (JSON.arr p.1, p.2)
      else if c = '"' then
        (parseStringBody (rest.length + 1) rest).map fun p => (JSON.str (String.mk p.1), p.2)
      else if c = 't' then
        (dropLiteral ['r', 'u', 'e'] rest).map fun r => (JSON.bool true, r)
      else if c = 'f' then
        (dropLiteral ['a', 'l', 's', 'e'] rest).map fun r => (JSON.bool false, r)
      else if c = 'n' then
        (dropLiteral ['u', 'l', 'l'] rest).map fun r => (JSON.null, r)
      else
        (parseNumber cs).map fun p => (JSON.num p.1, p.2)
/-- Scan the elements of a non-empty array up to and including the closing bracket. -/
def parseElements : Nat → Nat → List Char → Option (List JSON × List Char)
  | 0, _, _ => none
  | fuel + 1, depth, cs =>
    match parseValue fuel depth cs with
    | none => none
    | some (v, rest) =>
      match skipSpace rest with
      | [] => none
      | d :: rest2 =>
        if d = ']' then some ([v], rest2)
        else if d = ',' then
          (parseElements fuel depth (skipSpace rest2)).map fun p => (v :: p.1, p.2)
        else none
/-- Scan the members of a non-empty object up to and including the closing brace. -/
def parseMembers : Nat → Nat → List Char → Option (List (String × JSON) × List Char)
  | 0, _, _ => none
  | fuel + 1, depth, cs =>
    match cs with
    | [] => none
    | q :: afterQuote =>
      if q = '"' then
        match parseStringBody (afterQuote.length + 1) afterQuote with
        | none => none
        | some (key, rest) =>
          match skipSpace rest with
          | [] => none
          | colon :: rest2 =>
            if colon = ':' then
              match parseValue fuel depth (skipSpace rest2) with
              | none => none
              | some (v, rest3) =>
                match skipSpace rest3 with
                | [] => none
                | d :: rest4 =>
                  if d = '}' then some ([(String.mk key, v)], rest4)
                  else if d = ',' then
                    (parseMembers fuel depth (skipSpace rest4)).map
                      fun p => ((String.mk key, v) :: p.1, p.2)
                  else none
            else none
      else none
end

/-- Syntax check and parse of a whole body (`checkValid`): one value surrounded by
optional white space. -/
def parseJSON (body : String) : Option JSON :=
  match parseValue (2 * body.data.length + 2) 0 (skipSpace body.data) with
  | none => none
  | some (v, rest) => if skipSpace rest = [] then some v else none

/-! ## Decoding into `ResponsePayload` (`json.Unmarshal`) -/

/-- A non-nil value of the interface type `error` held by a payload, as built by
`errors.New`: only its message is kept. -/
structure ErrorValue where
  msg : String
  deriving DecidableEq, Repr

/-- The struct `ResponsePayload`: `Path` is `none` for the nil slice and `some []` for
the empty non-nil slice; `Error` is `none` for the nil interface value. -/
structure ResponsePayload where
  Path : Option (List String)
  Error : Option ErrorValue
  deriving DecidableEq, Repr

/-- Case folding of one rune of a member name (`foldRune`), exact on ASCII and on the
two non-ASCII runes that fold to an ASCII letter (U+017F and U+212A). -/
def foldRune (c : Char) : Char :=
  if 'a' ≤ c ∧ c ≤ 'z' then Char.ofNat (c.toNat - 32)
  else if c.toNat = 0x17F then 'S'
  else if c.toNat = 0x212A then 'K'
  else c

/-- Case folding of a member name (`foldName`). -/
def foldName (s : String) : List Char := s.data.map foldRune

/-- The fields of `ResponsePayload` with their JSON tags. -/
inductive ResponseField where
  | path
  | error
  deriving DecidableEq, Repr

/-- Field selected by an object key: the exact tag first, then the case-folded tag;
other keys select no field and their value is skipped. -/
def responseField (key : String) : Option ResponseField :=
  if key = "path" then some .path
  else if key = "error" then some .error
  else if foldName key = foldName "path" then some .path
  else if foldName key = foldName "error" then some .error
  else none

/-- The value being filled by the decoder: the struct, the elements of the backing
array of `Path` that lie beyond its length, and the first saved error. -/
structure DecodeState where
  payload : ResponsePayload
  spare : List String
  saved : Option GoError

/-- Record an error unless one is already recorded (`saveError`). -/
def DecodeState.saveError (t : DecodeState) (e : GoError) : DecodeState :=
  match t.saved with
  | some _ => t
  | none => { t with saved := some e }

/-- Decode the elements of an array into the slots of the backing array, left to
right: a string is stored, `null` leaves the slot as it is, any other value leaves the
slot and is a type error.  Returns the new elements, the untouched rest of the backing
array and whether a type error occurred. -/
def decodeElements : List JSON → List String → List String × List String × Bool
  | [], backing => ([], backing, false)
  | e :: es, backing =>
    let old := backing.headD ""
    let r := decodeElements es backing.tail
    match e with
    | .str s => (s :: r.1, r.2.1, r.2.2)
    | .null => (old :: r.1, r.2.1, r.2.2)
    | _ => (old :: r.1, r.2.1, true)

/-- Decode a JSON value into the field `Path []string`. -/
def decodePath (t : DecodeState) : JSON → DecodeState
  | .null => { t with payload := { t.payload with Path := none }, spare := [] }
  | .arr [] => { t with payload := { t.payload with Path := some [] }, spare := [] }
  | .arr (e :: es) =>
    let r := decodeElements (e :: es) (t.payload.Path.getD [] ++ t.spare)
    let t1 : DecodeState :=
      { t with payload := { t.payload with Path := some r.1 }, spare := r.2.1 }
    if r.2.2 then t1.saveError (.unmarshalTypeError "path") else t1
  | _ => t.saveError (.unmarshalTypeError "path")

/-- Decode a JSON value into the field `Error error`.  The field has a non-empty
interface type and holds nil, so only `null` can be stored; every other value is
rejected with an `UnmarshalTypeError`. -/
def decodeError (t : DecodeState) : JSON → DecodeState
  | .null => { t with payload := { t.payload with Error := none } }
  | _ => t.saveError (.unmarshalTypeError "error")

/-- Decode one object member. -/
def decodeMember (t : DecodeState) (m : String × JSON) : DecodeState :=
  match responseField m.1 with
  | some .path => decodePath t m.2
  | some .error => decodeError t m.2
  | none => t

/-- Decode a JSON value into a zero `ResponsePayload` (`json.Unmarshal` after the
syntax check): `null` leaves the struct untouched, an object is decoded member by
member and the first saved error is returned at the end, any other value is a type
error. -/
def unmarshalResponse : JSON → Except GoError ResponsePayload
  | .null => .ok { Path := none, Error := none }
  | .obj members =>
    let t := members.foldl decodeMember
      { payload := { Path := none, Error := none }, spare := [], saved := none }
    match t.saved with
    | some e => .error e
    | none => .ok t.payload
  | _ => .error (.unmarshalTypeError "")

/-- The function `parseResponse` (main.go:35-42): the decoded payload, or the error of
`json.Unmarshal`. -/
def parseResponse (responseData : String) : Except GoError ResponsePayload :=
  match parseJSON responseData with
  | none => .error .syntaxError
  | some v => unmarshalResponse v

/-! ## Encoding (`json.Marshal`) and the correlation identity -/

/-- The type `uuid.UUID`, an array of 16 bytes. -/
structure UUID where
  bytes : List (Fin 256)
  size : bytes.length = 16
  deriving DecidableEq

/-- Lower-case digit of a value below 16 (`hextable` in `encoding/hex`). -/
def hexDigit (n : Nat) : Char :=
  "0123456789abcdef".data.getD n '0'

/-- The function `hex.Encode`: two digits per byte, high nibble first. -/
def hexEncode : List (Fin 256) → List Char
  | [] => []
  | b :: bs => hexDigit (b.val / 16) :: hexDigit (b.val % 16) :: hexEncode bs

/-- The function `encodeHex` of the uuid package: the 36-character canonical form
`xxxxxxxx-xxxx-xxxx-xxxx-xxxxxxxxxxxx`. -/
def encodeHex (u : UUID) : List Char :=
  hexEncode (u.bytes.take 4) ++ '-' :: hexEncode ((u.bytes.drop 4).take 2) ++
    '-' :: hexEncode ((u.bytes.drop 6).take 2) ++ '-' :: hexEncode ((u.bytes.drop 8).take 2) ++
    '-' :: hexEncode (u.bytes.drop 10)

/-- The method `UUID.String`, which is also the text produced by `UUID.MarshalText`. -/
def UUID.String (u : UUID) : String := String.mk (encodeHex u)

/-- Encoding of one code point inside a JSON string (`appendString` with HTML
escaping, as `json.Marshal` uses it). -/
def encodeChar (c : Char) : List Char :=
  if c = '\\' ∨ c = '"' then ['\\', c]
  else if c.toNat = 8 then ['\\', 'b']
  else if c.toNat = 12 then ['\\', 'f']
  else if c = '\n' then ['\\', 'n']
  else if c = '\r' then ['\\', 'r']
  else if c = '\t' then ['\\', 't']
  else if c.toNat < 0x20 ∨ c = '<' ∨ c = '>' ∨ c = '&' then
    ['\\', 'u', '0', '0', hexDigit (c.toNat / 16), hexDigit (c.toNat % 16)]
  else if c.toNat = 0x2028 ∨ c.toNat = 0x2029 then
    ['\\', 'u', '2', '0', '2', hexDigit (c.toNat % 16)]
  else [c]

/-- Encoding of a string as a JSON string literal. -/
def encodeString (s : String) : List Char :=
  '"' :: (s.data.flatMap encodeChar ++ ['"'])

/-- The struct `RequestPayload`. -/
structure RequestPayload where
  Ori : String
  Dest : String
  ClientUUID : UUID
  deriving DecidableEq

/-- The call `json.Marshal` on a `RequestPayload`: the members `ori`, `dest` and
`client_uuid` in field order, the identity through `MarshalText`.  No value of the
struct makes it fail. -/
def marshalRequest (p : RequestPayload) : Except GoError String :=
  .ok (String.mk
    ("\x7b\"ori\":".data ++ encodeString p.Ori ++ ",\"dest\":".data ++ encodeString p.Dest ++
      ",\"client_uuid\":".data ++ encodeString p.ClientUUID.String ++ "\x7d".data))

/-- Elements of an encoded array, separated by commas. -/
def encodeElements : List String → List Char
  | [] => []
  | [s] => encodeString s
  | s :: t :: rest => encodeString s ++ ',' :: encodeElements (t :: rest)

/-- Encoding of the field `Path []string`: `null` for the nil slice, an array of
strings otherwise. -/
def encodePath : Option (List String) → List Char
  | none => ['n', 'u', 'l', 'l']
  | some xs => '[' :: (encodeElements xs ++ [']'])

/-- Encoding of the field `Error error`: `null` for the nil interface value; a non-nil
error built by `errors.New` points to a struct without exported fields and is encoded
as the empty object. -/
def encodeErrorValue : Option ErrorValue → List Char
  | none => ['n', 'u', 'l', 'l']
  | some _ => ['{', '}']

/-- The call `json.Marshal` on a `ResponsePayload`: the members `path` and `error` in
field order. -/
def marshalResponse (p : ResponsePayload) : String :=
  String.mk
    ("\x7b\"path\":".data ++ encodePath p.Path ++ ",\"error\":".data ++
      encodeErrorValue p.Error ++ "\x7d".data)

/-- The function `createRequest` (main.go:22-33): the body for origin `A`, destination `E` and the
process identity. -/
def createRequest (clientUUID : UUID) : Except GoError String :=
  let requestPayload : RequestPayload := { Ori := "A", Dest := "E", ClientUUID := clientUUID }
  match marshalRequest requestPayload with
  | .error err => .error err
  | .ok requestData => .ok requestData

/-- The function `init` (main.go:113-115): the global `clientUUID` receives the value drawn by
`uuid.New`. -/
def init (fresh : UUID) : UUID := fresh

/-! ## Broker set-up performed by `main` -/

/-- Arguments of `ch.QueueDeclare(name, durable, autoDelete, exclusive, noWait, args)`;
the argument table is nil in every call of the program. -/
structure QueueDeclareArgs where
  name : String
  durable : Bool
  autoDelete : Bool
  exclusive : Bool
  noWait : Bool
  deriving DecidableEq, Repr

/-- Arguments of `ch.ExchangeDeclare(name, kind, durable, autoDelete, internal, noWait,
args)`. -/
structure ExchangeDeclareArgs where
  name : String
  kind : String
  durable : Bool
  autoDelete : Bool
  internal : Bool
  noWait : Bool
  deriving DecidableEq, Repr

/-- Arguments of `ch.QueueBind(name, key, exchange, noWait, args)`. -/
structure QueueBindArgs where
  queue : String
  key : String
  exchange : String
  noWait : Bool
  deriving DecidableEq, Repr

/-- The declarations and the binding that `main` sends to the broker before it calls
`benchmark`, in the order of the calls. -/
structure Setup where
  exchange : ExchangeDeclareArgs
  requestsQueue : QueueDeclareArgs
  responseQueue : QueueDeclareArgs
  binding : QueueBindArgs
  deriving DecidableEq, Repr

/-- The set-up part of `main` (main.go:130-176) for the identity held by the global
`clientUUID`; `responseQueueName` is the name that the broker returned for the response
queue.  A failing call panics; the set-up described is that of a process that goes on
to `benchmark`. -/
def main (clientUUID : UUID) (responseQueueName : String) : Setup :=
  { exchange :=
      { name := "responses", kind := "direct", durable := true, autoDelete := false,
        internal := false, noWait := false }
    requestsQueue :=
      { name := "requests", durable := false, autoDelete := false, exclusive := false,
        noWait := false }
    responseQueue :=
      { name := "", durable := false, autoDelete := false, exclusive := true, noWait := false }
    binding :=
      { queue := responseQueueName, key := clientUUID.String, exchange := "responses",
        noWait := false } }

/-! ## The benchmark loop -/

/-- Number of samples to collect. -/
def SAMPLES_SIZE : Nat := 10000

/-- A value of `time.Duration`, in nanoseconds. -/
abbrev Duration := Int

/-- The surroundings of one run: successive readings of the clock, the result of each
call of `ch.PublishWithContext` (`none` for a nil error) and the body of each delivery
read from the response channel. -/
structure Env where
  now : Nat → Int
  publishResult : Nat → Option GoError
  delivery : Nat → String

/-- Lines written with `log.Printf`.  The second line carries the mean and the argument
of `math.Sqrt`, whose square root is the printed standard deviation. -/
inductive LogLine where
  | shortestPath (path : Option (List String))
  | averageRTT (mean : ℚ) (sdSquared : ℚ)
  deriving DecidableEq

/-- Program points at which a state of `benchmark` is observed: the head of the loop,
the receive on the response channel (with the value of `start`), and after the return
(with the returned error, `none` for nil). -/
inductive Control where
  | loopHead
  | awaitReply (start : Int)
  | returned (err : Option GoError)
  deriving DecidableEq

/-- State of a run: the global `clientUUID`, the locals `i` and `samples`, the program
point, and the interaction so far (clock readings taken, bodies handed to
`PublishWithContext`, deliveries read, lines logged). -/
structure State where
  clientUUID : UUID
  i : Int
  samples : List Duration
  control : Control
  clock : Nat
  published : List String
  received : Nat
  log : List LogLine

/-- State on entry to the loop (main.go:58-59), after `ch.Consume` has succeeded. -/
def State.initial (clientUUID : UUID) : State :=
  { clientUUID := clientUUID, i := 0, samples := [], control := .loopHead, clock := 0,
    published := [], received := 0, log := [] }

/-- First loop of the statistics (main.go:96-100): the mean. -/
def meanOf (samples : List Duration) : ℚ :=
  samples.foldl (fun (mean : ℚ) (sample : Duration) => mean + (sample : ℚ)) 0 /
    (samples.length : ℚ)

/-- Second loop of the statistics (main.go:102-106) up to the argument of `math.Sqrt`. -/
def sdSquaredOf (samples : List Duration) : ℚ :=
  samples.foldl
      (fun (sd : ℚ) (sample : Duration) => sd + ((sample : ℚ) - meanOf samples) ^ 2) 0 /
    (samples.length : ℚ)

/-- First half of the loop body (main.go:60-78), given the result of `createRequest`:
an encoding error is returned; otherwise the clock is read into `start` and the request
is published, and a publish error is returned. -/
def publishRequest (env : Env) (s : State) : Except GoError String → State
  | .error err => { s with control := .returned (some err) }
  | .ok request =>
    let start := env.now s.clock
    let s1 : State := { s with clock := s.clock + 1, published := s.published ++ [request] }
    match env.publishResult s.published.length with
    | some err => { s1 with control := .returned (some err) }
    | none => { s1 with control := .awaitReply start }

/-- Second half of the loop body (main.go:81-93) followed by the post statement `i++`,
given the result of `parseResponse` on the delivery just read: a decode error is
returned; a payload with a non-nil `Error` runs `i--` and `continue`; otherwise the
elapsed time is appended to `samples` and the path is logged. -/
def classify (env : Env) (s : State) (start : Int) : Except GoError ResponsePayload → State
  | .error err => { s with control := .returned (some err) }
  | .ok responsePayload =>
    match responsePayload.Error with
    | some _ => { s with i := s.i - 1 + 1, control := .loopHead }
    | none =>
      let rtt : Duration := env.now s.clock - start
      { s with
        clock := s.clock + 1
        samples := s.samples ++ [rtt]
        log := s.log ++ [.shortestPath responsePayload.Path]
        i := s.i + 1
        control := .loopHead }

/-- Statistics and report after the loop (main.go:96-110). -/
def report (s : State) : State :=
  { s with
    log := s.log ++ [.averageRTT (meanOf s.samples) (sdSquaredOf s.samples)]
    control := .returned none }

/-- The decoder called on each delivery (main.go:81); the program calls
`parseResponse`. -/
abbrev Decoder := String → Except GoError ResponsePayload

/-- One step of the loop of `benchmark` with target count `samplesSize` and decoder
`decode`: from the loop head up to the publish (or the report when the loop condition
fails), from the receive up to the next loop head; a returned run stays as it is. -/
def step (decode : Decoder) (env : Env) (samplesSize : Nat) (s : State) : State :=
  match s.control with
  | .returned _ => s
  | .loopHead =>
    if s.i < (samplesSize : Int) then publishRequest env s (createRequest s.clientUUID)
    else report s
  | .awaitReply start =>
    classify env { s with received := s.received + 1 } start (decode (env.delivery s.received))

/-- State after `k` steps from the entry to the loop, for a target count and a decoder. -/
def benchmarkWith (decode : Decoder) (env : Env) (samplesSize : Nat) (clientUUID : UUID) :
    Nat → State
  | 0 => State.initial clientUUID
  | k + 1 => step decode env samplesSize (benchmarkWith decode env samplesSize clientUUID k)

/-- The function `benchmark` (main.go:44-111) as written: target count `SAMPLES_SIZE`, decoder
`parseResponse`; the state after `k` steps. -/
def benchmark (env : Env) (clientUUID : UUID) (k : Nat) : State :=
  benchmarkWith parseResponse env SAMPLES_SIZE clientUUID k

/-! ## Observations on runs -/

/-- A delivery counts as a successful reply when it decodes to a payload with a nil
`Error`. -/
def isSuccess (decode : Decoder) (body : String) : Bool :=
  match decode body with
  | .ok p => p.Error.isNone
  | .error _ => false

/-- A delivery is a domain error when it decodes to a payload with a non-nil `Error`. -/
def isDomainError (decode : Decoder) (body : String) : Bool :=
  match decode body with
  | .ok p => p.Error.isSome
  | .error _ => false

/-- Number of successful replies among the first `r` deliveries. -/
def successes (decode : Decoder) (env : Env) : Nat → Nat
  | 0 => 0
  | r + 1 => successes decode env r + (if isSuccess decode (env.delivery r) then 1 else 0)

/-- Number of domain errors among the first `r` deliveries. -/
def domainErrors (decode : Decoder) (env : Env) : Nat → Nat
  | 0 => 0
  | r + 1 => domainErrors decode env r + (if isDomainError decode (env.delivery r) then 1 else 0)

/-- The line with the mean and the standard deviation. -/
def LogLine.isReport : LogLine → Bool
  | .averageRTT _ _ => true
  | .shortestPath _ => false

/-- Whether the mean and standard deviation have been logged. -/
def State.reported (s : State) : Bool := s.log.any LogLine.isReport

/-- Number of calls of `PublishWithContext` so far. -/
def State.publishes (s : State) : Nat := s.published.length

/-- Value of a member of a JSON object, by exact name. -/
def memberOf (key : String) : JSON → Option JSON
  | .obj members => (members.find? fun m => m.1 == key).map fun m => m.2
  | _ => none

/-- Text of a string member of the object encoded in `body`. -/
def stringMember (body : String) (key : String) : Option String :=
  match (parseJSON body).bind (memberOf key) with
  | some (.str s) => some s
  | _ => none

/-- JSON value of the member `path` written by `marshalResponse`. -/
def pathValue : Option (List String) → JSON
  | none => JSON.null
  | some xs => JSON.arr (xs.map JSON.str)

/-- Characters that the scanner copies unchanged inside a string literal. -/
def isPlain (c : Char) : Prop := c ≠ '"' ∧ c ≠ '\\' ∧ ¬ c.toNat < 0x20

/-- What holds of every state of a run for identity `u` and target count `n`, by
program point. -/
def Inv (decode : Decoder) (env : Env) (n : Nat) (u : UUID) (s : State) : Prop :=
  s.clientUUID = u ∧ s.i = (s.samples.length : Int) ∧
  s.samples.length = successes decode env s.received ∧
  (∀ body ∈ s.published, createRequest u = .ok body) ∧
  match s.control with
  | .loopHead => s.publishes = s.received ∧ s.samples.length ≤ n ∧ s.reported = false
  | .awaitReply _ => s.publishes = s.received + 1 ∧ s.samples.length < n ∧ s.reported = false
  | .returned none => s.publishes = s.received ∧ s.samples.length = n ∧ s.reported = true
  | .returned (some _) =>
    (s.publishes = s.received ∨ s.publishes = s.received + 1) ∧ s.samples.length < n ∧
      s.reported = false

/-! ## Concrete inputs -/

/-- An identity. -/
def sampleUUID : UUID :=
  ⟨[0x12, 0x34, 0x56, 0x78, 0x9a, 0xbc, 0xde, 0xf0, 0x01, 0x23, 0x45, 0x67, 0x89, 0xab, 0xcd,
    0xef], rfl⟩

/-- The request body for `sampleUUID`. -/
def sampleRequestBody : String :=
  "\x7b\"ori\":\"A\",\"dest\":\"E\"," ++
    "\"client_uuid\":\"12345678-9abc-def0-0123-456789abcdef\"\x7d"

/-- A reply that carries a path and a null error. -/
def pathBody : String := "\x7b\"path\":[\"A\",\"B\",\"E\"],\"error\":null\x7d"

/-- A reply that carries a non-null error. -/
def noPathBody : String := "\x7b\"path\":null,\"error\":\"no path\"\x7d"

/-- Every publish succeeds and every reply carries a path; the clock advances by 100
at each reading. -/
def steadyEnv : Env :=
  { now := fun k => 100 * (k : Int), publishResult := fun _ => none, delivery := fun _ => pathBody }

/-- As `steadyEnv`, but the first reply carries a non-null error. -/
def firstReplyErrorEnv : Env :=
  { steadyEnv with delivery := fun k => if k = 0 then noPathBody else pathBody }

/-- As `steadyEnv`, but the second reply carries a non-null error. -/
def secondReplyErrorEnv : Env :=
  { steadyEnv with delivery := fun k => if k = 1 then noPathBody else pathBody }

/-- As `steadyEnv`, but the second publish fails. -/
def publishFailureEnv : Env :=
  { steadyEnv with
    publishResult := fun k => if k = 1 then some (.publishError "channel closed") else none }

/-- As `steadyEnv`, but the second reply is not a JSON text. -/
def malformedReplyEnv : Env :=
  { steadyEnv with delivery := fun k => if k = 1 then "path: A B E" else pathBody }

/-! # Theorems -/

/-! ## Facts about the decoder -/

theorem saveError_payload (t : DecodeState) (e : GoError) :
    (t.saveError e).payload = t.payload := by
  unfold DecodeState.saveError
  cases t.saved <;> rfl

theorem saveError_saved_ne_none (t : DecodeState) (e : GoError) :
    (t.saveError e).saved ≠ none := by
  unfold DecodeState.saveError
  cases h : t.saved <;> simp [h]

theorem decodePath_error (t : DecodeState) (v : JSON) :
    (decodePath t v).payload.Error = t.payload.Error := by
  unfold decodePath
  split
  · rfl
  · rfl
  · simp only []
    split
    · rw [saveError_payload]
    · rfl
  · rw [saveError_payload]

theorem decodePath_saved (t : DecodeState) (v : JSON) (h : t.saved ≠ none) :
    (decodePath t v).saved ≠ none := by
  unfold decodePath
  split
  · exact h
  · exact h
  · simp only []
    split
    · exact saveError_saved_ne_none _ _
    · exact h
  · exact saveError_saved_ne_none _ _

theorem decodeError_error (t : DecodeState) (v : JSON) (h : t.payload.Error = none) :
    (decodeError t v).payload.Error = none := by
  unfold decodeError
  split
  · rfl
  · rw [saveError_payload]; exact h

theorem decodeError_saved (t : DecodeState) (v : JSON) (h : t.saved ≠ none) :
    (decodeError t v).saved ≠ none := by
  unfold decodeError
  split
  · exact h
  · exact saveError_saved_ne_none _ _

theorem decodeError_rejects (t : DecodeState) (v : JSON) (h : v ≠ JSON.null) :
    (decodeError t v).saved ≠ none := by
  unfold decodeError
  split
  · exact absurd rfl h
  · exact saveError_saved_ne_none _ _

theorem decodeMember_error (t : DecodeState) (m : String × JSON) (h : t.payload.Error = none) :
    (decodeMember t m).payload.Error = none := by
  unfold decodeMember
  split
  · rw [decodePath_error]; exact h
  · exact decodeError_error t m.2 h
  · exact h

theorem decodeMember_saved (t : DecodeState) (m : String × JSON) (h : t.saved ≠ none) :
    (decodeMember t m).saved ≠ none := by
  unfold decodeMember
  split
  · exact decodePath_saved t m.2 h
  · exact decodeError_saved t m.2 h
  · exact h

theorem foldl_decodeMember_error (ms : List (String × JSON)) :
    ∀ t : DecodeState, t.payload.Error = none →
      (ms.foldl decodeMember t).payload.Error = none := by
  induction ms with
  | nil => intro t h; exact h
  | cons m ms ih => intro t h; exact ih _ (decodeMember_error t m h)

theorem foldl_decodeMember_saved (ms : List (String × JSON)) :
    ∀ t : DecodeState, t.saved ≠ none → (ms.foldl decodeMember t).saved ≠ none := by
  induction ms with
  | nil => intro t h; exact h
  | cons m ms ih => intro t h; exact ih _ (decodeMember_saved t m h)

/-- A member whose key folds to `error` and whose value is not `null` makes the decoder
save an error, whatever the other members are. -/
theorem foldl_decodeMember_rejects (ms : List (String × JSON)) (key : String) (v : JSON)
    (hk : responseField key = some .error) (hv : v ≠ JSON.null) (hm : (key, v) ∈ ms) :
    ∀ t : DecodeState, (ms.foldl decodeMember t).saved ≠ none := by
  induction ms with
  | nil => simp at hm
  | cons m ms ih =>
    intro t
    rcases List.mem_cons.mp hm with h | h
    · subst h
      rw [List.foldl_cons]
      apply foldl_decodeMember_saved
      unfold decodeMember
      simp only [hk]
      exact decodeError_rejects t v hv
    · exact ih h _

/-- The payload returned by `parseResponse` never has a non-nil `Error`. -/
theorem parseResponse_ok_error (body : String) (p : ResponsePayload)
    (h : parseResponse body = .ok p) : p.Error = none := by
  unfold parseResponse at h
  split at h
  · cases h
  · rename_i v _
    unfold unmarshalResponse at h
    split at h
    · cases h; rfl
    · simp only [] at h
      split at h
      · cases h
      · cases h
        exact foldl_decodeMember_error _ _ rfl
    · cases h

/-- A body that is an object with a non-null member `error` is rejected by
`parseResponse`. -/
theorem parseResponse_rejects (body : String) (ms : List (String × JSON)) (key : String)
    (v : JSON) (hb : parseJSON body = some (JSON.obj ms))
    (hk : responseField key = some .error) (hv : v ≠ JSON.null) (hm : (key, v) ∈ ms) :
    ∃ e, parseResponse body = .error e := by
  unfold parseResponse
  rw [hb]
  simp only [unmarshalResponse]
  have := foldl_decodeMember_rejects ms key v hk hv hm
    { payload := { Path := none, Error := none }, spare := [], saved := none }
  split
  · exact ⟨_, rfl⟩
  · rename_i h; exact absurd h this

/-! ## The loop invariant -/

theorem createRequest_ok (u : UUID) : ∃ body, createRequest u = .ok body :=
  ⟨_, rfl⟩

theorem reported_append (s : State) (l : LogLine) :
    (s.log ++ [l]).any LogLine.isReport = (s.reported || l.isReport) := by
  simp [State.reported, List.any_append]

theorem Inv_initial (decode : Decoder) (env : Env) (n : Nat) (u : UUID) :
    Inv decode env n u (State.initial u) := by
  simp [Inv, State.initial, successes, State.publishes, State.reported]

theorem Inv_step (decode : Decoder) (env : Env) (n : Nat) (u : UUID) (s : State)
    (h : Inv decode env n u s) : Inv decode env n u (step decode env n s) := by
  obtain ⟨hu, hi, hs, hp, hc⟩ := h
  unfold step
  cases hctl : s.control with
  | returned r =>
    simp only []
    exact ⟨hu, hi, hs, hp, by rw [hctl]; rw [hctl] at hc; exact hc⟩
  | loopHead =>
    rw [hctl] at hc
    simp only [] at hc ⊢
    obtain ⟨hpr, hle, hrep⟩ := hc
    split
    · rename_i hlt
      have hlt2 : s.samples.length < n := by rw [hi] at hlt; exact_mod_cast hlt
      obtain ⟨body, hbody⟩ := createRequest_ok s.clientUUID
      rw [hbody]
      have hmem : ∀ b ∈ s.published ++ [body], createRequest u = .ok b := by
        intro b hb
        rcases List.mem_append.mp hb with hb | hb
        · exact hp b hb
        · rw [List.mem_singleton] at hb; rw [hb, ← hu]; exact hbody
      simp only [publishRequest]
      split
      · refine ⟨hu, hi, hs, hmem, ?_⟩
        simp only [State.publishes, State.reported, List.length_append, List.length_singleton]
        exact ⟨Or.inr (by rw [← hpr]; rfl), hlt2, hrep⟩
      · refine ⟨hu, hi, hs, hmem, ?_⟩
        simp only [State.publishes, State.reported, List.length_append, List.length_singleton]
        exact ⟨by rw [← hpr]; rfl, hlt2, hrep⟩
    · rename_i hge
      have hge2 : ¬ s.samples.length < n := by rw [hi] at hge; exact_mod_cast hge
      refine ⟨hu, hi, hs, hp, ?_⟩
      simp only [report, State.publishes, State.reported]
      refine ⟨hpr, by omega, ?_⟩
      rw [reported_append]; simp [LogLine.isReport]
  | awaitReply start =>
    rw [hctl] at hc
    simp only [] at hc ⊢
    obtain ⟨hpr, hlt, hrep⟩ := hc
    cases hparse : decode (env.delivery s.received) with
    | error e =>
      have hsucc : isSuccess decode (env.delivery s.received) = false := by
        simp [isSuccess, hparse]
      refine ⟨hu, hi, ?_, hp, ?_⟩
      · simp only [classify, successes, hsucc]; simpa using hs
      · simp only [classify, State.publishes, State.reported]
        exact ⟨Or.inl hpr, hlt, hrep⟩
    | ok p =>
      cases herr : p.Error with
      | some e =>
        have hsucc : isSuccess decode (env.delivery s.received) = false := by
          simp [isSuccess, hparse, herr]
        simp only [classify, herr]
        refine ⟨hu, ?_, ?_, hp, ?_⟩
        · simp only [classify, herr]; rw [hi]; omega
        · simp only [classify, herr, successes, hsucc]; simpa using hs
        · simp only [classify, herr, State.publishes, State.reported]
          exact ⟨hpr, Nat.le_of_lt hlt, hrep⟩
      | none =>
        have hsucc : isSuccess decode (env.delivery s.received) = true := by
          simp [isSuccess, hparse, herr]
        simp only [classify, herr]
        refine ⟨hu, ?_, ?_, hp, ?_⟩
        · simp only [classify, herr, List.length_append, List.length_singleton]
          rw [hi]; push_cast; rfl
        · simp only [classify, herr, successes, hsucc, List.length_append,
            List.length_singleton]
          simpa using hs
        · simp only [classify, herr, State.publishes, State.reported, List.length_append,
            List.length_singleton]
          refine ⟨hpr, hlt, ?_⟩
          rw [reported_append]; simp [LogLine.isReport, hrep]

/-- Every state of a run satisfies the invariant. -/
theorem Inv_benchmarkWith (decode : Decoder) (env : Env) (n : Nat) (u : UUID) (k : Nat) :
    Inv decode env n u (benchmarkWith decode env n u k) := by
  induction k with
  | zero => exact Inv_initial decode env n u
  | succ k ih => exact Inv_step decode env n u _ ih

theorem step_returned (decode : Decoder) (env : Env) (n : Nat) (s : State) (r : Option GoError)
    (h : s.control = .returned r) : step decode env n s = s := by
  unfold step; rw [h]

/-- A run that has returned never changes again. -/
theorem benchmarkWith_stable (decode : Decoder) (env : Env) (n : Nat) (u : UUID) (k : Nat)
    (r : Option GoError)
    (h : (benchmarkWith decode env n u k).control = .returned r) (j : Nat) :
    benchmarkWith decode env n u (k + j) = benchmarkWith decode env n u k := by
  induction j with
  | zero => rfl
  | succ j ih =>
    show step decode env n (benchmarkWith decode env n u (k + j)) = _
    rw [ih]; exact step_returned decode env n _ r h

theorem parseStringBody_plain (cs rest : List Char) (h : ∀ c ∈ cs, isPlain c) :
    ∀ fuel, cs.length < fuel → parseStringBody fuel (cs ++ '"' :: rest) = some (cs, rest) := by
  induction cs with
  | nil =>
    intro fuel hf
    obtain ⟨f, rfl⟩ : ∃ f, fuel = f + 1 := ⟨fuel - 1, by simp at hf; omega⟩
    simp [parseStringBody]
  | cons c cs ih =>
    intro fuel hf
    obtain ⟨f, rfl⟩ : ∃ f, fuel = f + 1 := ⟨fuel - 1, by simp at hf; omega⟩
    have hc := h c (List.mem_cons_self _ _)
    have ih2 := ih (fun x hx => h x (List.mem_cons_of_mem _ hx)) f (by simp at hf; omega)
    rw [List.cons_append]
    simp only [parseStringBody, if_neg hc.1, if_neg hc.2.1, if_neg hc.2.2, ih2]
    rfl

theorem parseValue_string (fuel depth : Nat) (cs rest : List Char) (h : ∀ c ∈ cs, isPlain c) :
    parseValue (fuel + 1) depth ('"' :: (cs ++ '"' :: rest)) =
      some (JSON.str (String.mk cs), rest) := by
  have hs := parseStringBody_plain cs rest h ((cs ++ '"' :: rest).length + 1)
    (by simp; omega)
  simp only [List.length_append, List.length_cons] at hs
  simp [parseValue, hs]

/-! ## Runs of the loop -/

/-- No body is classified as a domain error by `parseResponse`. -/
theorem isDomainError_parseResponse (body : String) :
    isDomainError parseResponse body = false := by
  unfold isDomainError
  cases h : parseResponse body with
  | error e => rfl
  | ok p => simp [parseResponse_ok_error body p h]

/-- No run of the program counts a domain error. -/
theorem domainErrors_parseResponse (env : Env) (m : Nat) :
    domainErrors parseResponse env m = 0 := by
  induction m with
  | zero => rfl
  | succ m ih => simp [domainErrors, ih, isDomainError_parseResponse]

theorem successes_of_all (decode : Decoder) (env : Env) (m : Nat)
    (h : ∀ a, a < m → isSuccess decode (env.delivery a) = true) :
    successes decode env m = m := by
  induction m with
  | zero => rfl
  | succ m ih =>
    simp only [successes, ih (fun a ha => h a (Nat.lt_succ_of_lt ha)),
      h m (Nat.lt_succ_self m), if_true]

/-- While the target is not reached and every publish and reply succeeds, two steps
serve one reply. -/
theorem loopHead_after (decode : Decoder) (env : Env) (n : Nat) (u : UUID) (j : Nat)
    (hj : j ≤ n)
    (hpub : ∀ a, a < j → env.publishResult a = none)
    (hsucc : ∀ a, a < j → isSuccess decode (env.delivery a) = true) :
    (benchmarkWith decode env n u (2 * j)).control = .loopHead ∧
      (benchmarkWith decode env n u (2 * j)).received = j := by
  induction j with
  | zero => exact ⟨rfl, rfl⟩
  | succ j ih =>
    obtain ⟨hc, hr⟩ := ih (Nat.le_of_succ_le hj) (fun a ha => hpub a (Nat.lt_succ_of_lt ha))
      (fun a ha => hsucc a (Nat.lt_succ_of_lt ha))
    obtain ⟨_, hi, hs, _, hctl⟩ := Inv_benchmarkWith decode env n u (2 * j)
    rw [hc] at hctl
    show (step decode env n (step decode env n (benchmarkWith decode env n u (2 * j)))).control
        = .loopHead ∧
      (step decode env n (step decode env n (benchmarkWith decode env n u (2 * j)))).received
        = j + 1
    generalize benchmarkWith decode env n u (2 * j) = s at hc hr hi hs hctl
    have hcount := successes_of_all decode env j (fun a ha => hsucc a (Nat.lt_succ_of_lt ha))
    have hlt : s.i < (n : Int) := by
      rw [hi, hs, hr, hcount]; exact_mod_cast hj
    have hp : env.publishResult s.published.length = none := by
      have : s.published.length = j := by
        have := hctl.1; unfold State.publishes at this; rw [this, hr]
      rw [this]; exact hpub j (Nat.lt_succ_self j)
    have hd := hsucc j (Nat.lt_succ_self j)
    obtain ⟨body, hbody⟩ := createRequest_ok s.clientUUID
    have h1 : step decode env n s =
        { s with clock := s.clock + 1, published := s.published ++ [body],
                 control := .awaitReply (env.now s.clock) } := by
      unfold step
      rw [hc]
      simp only [if_pos hlt, hbody, publishRequest, hp]
    rw [h1]
    unfold step
    simp only [hr]
    unfold isSuccess at hd
    cases hdd : decode (env.delivery j) with
    | error e => rw [hdd] at hd; cases hd
    | ok p =>
      rw [hdd] at hd
      cases hp : p.Error with
      | none => simp [classify, hp]
      | some e => simp [hp] at hd

/-- A run in which the first `n` publishes succeed and the first `n` replies are
successes returns nil after `2 * n + 1` steps with `n` publishes, `n` receives and `n`
samples. -/
theorem all_success_run (decode : Decoder) (env : Env) (n : Nat) (u : UUID)
    (hpub : ∀ a, a < n → env.publishResult a = none)
    (hsucc : ∀ a, a < n → isSuccess decode (env.delivery a) = true) :
    (benchmarkWith decode env n u (2 * n + 1)).control = .returned none ∧
      (benchmarkWith decode env n u (2 * n + 1)).publishes = n ∧
      (benchmarkWith decode env n u (2 * n + 1)).received = n ∧
      (benchmarkWith decode env n u (2 * n + 1)).samples.length = n := by
  obtain ⟨hc, hr⟩ := loopHead_after decode env n u n (Nat.le_refl n) hpub hsucc
  obtain ⟨_, hi, hs, _, hctl⟩ := Inv_benchmarkWith decode env n u (2 * n)
  rw [hc] at hctl
  show (step decode env n (benchmarkWith decode env n u (2 * n))).control = _ ∧
    (step decode env n (benchmarkWith decode env n u (2 * n))).publishes = _ ∧
    (step decode env n (benchmarkWith decode env n u (2 * n))).received = _ ∧
    (step decode env n (benchmarkWith decode env n u (2 * n))).samples.length = _
  generalize benchmarkWith decode env n u (2 * n) = s at hc hr hi hs hctl
  have hlen : s.samples.length = n := by rw [hs, hr, successes_of_all decode env n hsucc]
  have hge : ¬ s.i < (n : Int) := by rw [hi, hlen]; exact lt_irrefl _
  have h1 : step decode env n s = report s := by
    unfold step; rw [hc]; simp only [if_neg hge]
  rw [h1]
  refine ⟨rfl, ?_, hr, hlen⟩
  show s.publishes = n
  rw [hctl.1, hr]

/-- The program as written, when every publish succeeds and every reply carries a path,
returns nil after `SAMPLES_SIZE` cycles with `SAMPLES_SIZE` samples. -/
theorem steady_run_completes :
    (benchmark steadyEnv sampleUUID 20001).control = .returned none ∧
      (benchmark steadyEnv sampleUUID 20001).publishes = 10000 ∧
      (benchmark steadyEnv sampleUUID 20001).received = 10000 ∧
      (benchmark steadyEnv sampleUUID 20001).samples.length = 10000 :=
  all_success_run parseResponse steadyEnv SAMPLES_SIZE sampleUUID (fun _ _ => rfl)
    (fun _ _ => rfl)

/-- In every state at the head of the loop the number of samples equals the number of
successful replies received so far and equals `i`; after a nil return the number of
samples is the target count. -/
theorem loop_head_invariant (decode : Decoder) (env : Env) (u : UUID) (n k : Nat) :
    ((benchmarkWith decode env n u k).control = .loopHead →
      (benchmarkWith decode env n u k).samples.length
          = successes decode env (benchmarkWith decode env n u k).received ∧
        (benchmarkWith decode env n u k).i
          = ((benchmarkWith decode env n u k).samples.length : Int)) ∧
    ((benchmarkWith decode env n u k).control = .returned none →
      (benchmarkWith decode env n u k).samples.length = n) := by
  obtain ⟨_, hi, hs, _, hctl⟩ := Inv_benchmarkWith decode env n u k
  refine ⟨fun _ => ⟨hs, hi⟩, fun hc => ?_⟩
  rw [hc] at hctl
  exact hctl.2.1

/-! ## Parsing the encoding of a request -/

theorem skipSpace_cons (c : Char) (cs : List Char) (h : isSpace c = false) :
    skipSpace (c :: cs) = c :: cs := by
  simp [skipSpace, h]

theorem parseMembers_string_last (fuel depth : Nat) (key val rest : List Char)
    (hk : ∀ c ∈ key, isPlain c) (hv : ∀ c ∈ val, isPlain c) :
    parseMembers (fuel + 2) depth
        ('"' :: (key ++ '"' :: ':' :: '"' :: (val ++ '"' :: '}' :: rest))) =
      some ([(String.mk key, JSON.str (String.mk val))], rest) := by
  have h1 := parseStringBody_plain key (':' :: '"' :: (val ++ '"' :: '}' :: rest)) hk
    ((key ++ '"' :: ':' :: '"' :: (val ++ '"' :: '}' :: rest)).length + 1) (by simp; omega)
  have h2 := parseValue_string fuel depth val ('}' :: rest) hv
  have h3 : skipSpace (':' :: '"' :: (val ++ '"' :: '}' :: rest))
      = ':' :: '"' :: (val ++ '"' :: '}' :: rest) := skipSpace_cons _ _ (by decide)
  have h4 : skipSpace ('"' :: (val ++ '"' :: '}' :: rest))
      = '"' :: (val ++ '"' :: '}' :: rest) := skipSpace_cons _ _ (by decide)
  have h5 : skipSpace ('}' :: rest) = '}' :: rest := skipSpace_cons _ _ (by decide)
  rw [parseMembers]
  simp only [if_true, h1, h3, h4, h2, h5]

theorem parseMembers_string_more (fuel depth : Nat) (key val rest : List Char)
    (hk : ∀ c ∈ key, isPlain c) (hv : ∀ c ∈ val, isPlain c) :
    parseMembers (fuel + 2) depth
        ('"' :: (key ++ '"' :: ':' :: '"' :: (val ++ '"' :: ',' :: '"' :: rest))) =
      (parseMembers (fuel + 1) depth ('"' :: rest)).map
        fun p => ((String.mk key, JSON.str (String.mk val)) :: p.1, p.2) := by
  have h1 := parseStringBody_plain key (':' :: '"' :: (val ++ '"' :: ',' :: '"' :: rest)) hk
    ((key ++ '"' :: ':' :: '"' :: (val ++ '"' :: ',' :: '"' :: rest)).length + 1)
    (by simp; omega)
  have h2 := parseValue_string fuel depth val (',' :: '"' :: rest) hv
  have h3 : skipSpace (':' :: '"' :: (val ++ '"' :: ',' :: '"' :: rest))
      = ':' :: '"' :: (val ++ '"' :: ',' :: '"' :: rest) := skipSpace_cons _ _ (by decide)
  have h4 : skipSpace ('"' :: (val ++ '"' :: ',' :: '"' :: rest))
      = '"' :: (val ++ '"' :: ',' :: '"' :: rest) := skipSpace_cons _ _ (by decide)
  have h5 : skipSpace (',' :: '"' :: rest) = ',' :: '"' :: rest := skipSpace_cons _ _ (by decide)
  have h6 : skipSpace ('"' :: rest) = '"' :: rest := skipSpace_cons _ _ (by decide)
  rw [parseMembers]
  simp only [if_true, h1, h3, h4, h2, h5, h6]
  simp


theorem hexDigit_mem (n : Nat) : hexDigit n ∈ "0123456789abcdef".data := by
  unfold hexDigit
  rcases Nat.lt_or_ge n 16 with h | h
  · interval_cases n <;> decide
  · rw [List.getD_eq_default _ _ (by simpa using h)]; decide

theorem hexEncode_mem (bs : List (Fin 256)) :
    ∀ c ∈ hexEncode bs, c ∈ "0123456789abcdef".data := by
  induction bs with
  | nil => intro c hc; simp [hexEncode] at hc
  | cons b bs ih =>
    intro c hc
    simp only [hexEncode, List.mem_cons] at hc
    rcases hc with rfl | rfl | hc
    · exact hexDigit_mem _
    · exact hexDigit_mem _
    · exact ih c hc

theorem encodeHex_mem (u : UUID) : ∀ c ∈ encodeHex u, c ∈ "0123456789abcdef-".data := by
  intro c hc
  have key : ∀ x, x ∈ "0123456789abcdef".data → x ∈ "0123456789abcdef-".data := by decide
  simp only [encodeHex, List.mem_append, List.mem_cons, or_assoc] at hc
  rcases hc with hc | hc | hc | hc | hc | hc | hc | hc | hc
  all_goals first
    | exact key _ (hexEncode_mem _ _ hc)
    | (rw [hc]; decide)

theorem canonical_isPlain : ∀ c ∈ "0123456789abcdef-".data, isPlain c := by
  unfold isPlain; decide

theorem canonical_encodeChar : ∀ c ∈ "0123456789abcdef-".data, encodeChar c = [c] := by
  decide

theorem flatMap_encodeChar_canonical (cs : List Char)
    (h : ∀ c ∈ cs, c ∈ "0123456789abcdef-".data) : cs.flatMap encodeChar = cs := by
  induction cs with
  | nil => rfl
  | cons c cs ih =>
    rw [List.flatMap_cons, canonical_encodeChar c (h c (List.mem_cons_self _ _)),
      ih (fun x hx => h x (List.mem_cons_of_mem _ hx))]
    rfl

/-- Characters of the body built by `createRequest`. -/
theorem createRequest_eq (u : UUID) :
    createRequest u = .ok (String.mk
      ('{' :: '"' :: (['o', 'r', 'i'] ++ '"' :: ':' :: '"' :: (['A'] ++ '"' :: ',' :: '"' ::
        (['d', 'e', 's', 't'] ++ '"' :: ':' :: '"' :: (['E'] ++ '"' :: ',' :: '"' ::
          (['c', 'l', 'i', 'e', 'n', 't', '_', 'u', 'u', 'i', 'd'] ++
            '"' :: ':' :: '"' :: (encodeHex u ++ '"' :: ['}'])))))))) := by
  have h : encodeString u.String = '"' :: (encodeHex u ++ ['"']) := by
    simp only [encodeString, UUID.String]
    rw [flatMap_encodeChar_canonical _ (encodeHex_mem u)]
  have hA : encodeString "A" = ['"', 'A', '"'] := by decide
  have hE : encodeString "E" = ['"', 'E', '"'] := by decide
  simp only [createRequest, marshalRequest, h, hA, hE]
  simp

theorem parseValue_request (val : List Char) (hp : ∀ c ∈ val, isPlain c) (f : Nat) :
    parseValue (f + 5) 0
      ('{' :: '"' :: (['o', 'r', 'i'] ++ '"' :: ':' :: '"' :: (['A'] ++ '"' :: ',' :: '"' ::
        (['d', 'e', 's', 't'] ++ '"' :: ':' :: '"' :: (['E'] ++ '"' :: ',' :: '"' ::
          (['c', 'l', 'i', 'e', 'n', 't', '_', 'u', 'u', 'i', 'd'] ++
            '"' :: ':' :: '"' :: (val ++ '"' :: ['}']))))))) =
      some (JSON.obj [("ori", JSON.str "A"), ("dest", JSON.str "E"),
        ("client_uuid", JSON.str (String.mk val))], []) := by
  have h3 := parseMembers_string_last f 1 ['c', 'l', 'i', 'e', 'n', 't', '_', 'u', 'u', 'i', 'd']
    val [] (by unfold isPlain; decide) hp
  have h2 := parseMembers_string_more (f + 1) 1 ['d', 'e', 's', 't'] ['E']
    (['c', 'l', 'i', 'e', 'n', 't', '_', 'u', 'u', 'i', 'd'] ++ '"' :: ':' :: '"' ::
      (val ++ '"' :: ['}']))
    (by unfold isPlain; decide) (by unfold isPlain; decide)
  have h1 := parseMembers_string_more (f + 2) 1 ['o', 'r', 'i'] ['A']
    (['d', 'e', 's', 't'] ++ '"' :: ':' :: '"' :: (['E'] ++ '"' :: ',' :: '"' ::
      (['c', 'l', 'i', 'e', 'n', 't', '_', 'u', 'u', 'i', 'd'] ++ '"' :: ':' :: '"' ::
        (val ++ '"' :: ['}']))))
    (by unfold isPlain; decide) (by unfold isPlain; decide)
  rw [h2, h3] at h1
  unfold parseValue
  have hs : ∀ rest : List Char, skipSpace ('"' :: rest) = '"' :: rest :=
    fun rest => skipSpace_cons _ _ (by decide)
  have hd : ¬ maxNestingDepth ≤ 0 := by decide
  simp only [if_true, hs, if_neg hd]
  have hq : ¬ ('"' : Char) = '}' := by decide
  simp only [if_neg hq]
  rw [h1]
  rfl

theorem parseJSON_request (u : UUID) (body : String) (h : createRequest u = .ok body) :
    parseJSON body = some (JSON.obj [("ori", JSON.str "A"), ("dest", JSON.str "E"),
      ("client_uuid", JSON.str u.String)]) := by
  rw [createRequest_eq] at h
  injection h with h
  subst h
  have hp : ∀ c ∈ encodeHex u, isPlain c := fun c hc => canonical_isPlain c (encodeHex_mem u c hc)
  unfold parseJSON
  rw [skipSpace_cons _ _ (by decide)]
  have key := parseValue_request (encodeHex u) hp
    (2 * ('{' :: '"' :: (['o', 'r', 'i'] ++ '"' :: ':' :: '"' :: (['A'] ++ '"' :: ',' :: '"' ::
        (['d', 'e', 's', 't'] ++ '"' :: ':' :: '"' :: (['E'] ++ '"' :: ',' :: '"' ::
          (['c', 'l', 'i', 'e', 'n', 't', '_', 'u', 'u', 'i', 'd'] ++
            '"' :: ':' :: '"' :: (encodeHex u ++ '"' :: ['}']))))))).length + 2 - 5)
  rw [Nat.sub_add_cancel (by simp only [List.length_cons]; omega)] at key
  rw [key]
  rfl

/-- The member `client_uuid` of a body built by `createRequest` is the text of the
identity. -/
theorem createRequest_client_uuid (u : UUID) (body : String) (h : createRequest u = .ok body) :
    stringMember body "client_uuid" = some u.String := by
  unfold stringMember
  rw [parseJSON_request u body h]
  rfl

/-! ## Encoding and decoding of string literals -/

theorem hexValue_hexDigit (n : Nat) (h : n < 16) : hexValue (hexDigit n) = some n := by
  interval_cases n <;> decide

theorem getu4_escape (a b c d : Char) (rest : List Char) (x y z w : Nat)
    (ha : hexValue a = some x) (hb : hexValue b = some y) (hc : hexValue c = some z)
    (hd : hexValue d = some w) :
    getu4 ('\\' :: 'u' :: a :: b :: c :: d :: rest)
      = some (((x * 16 + y) * 16 + z) * 16 + w, rest) := by
  simp [getu4, ha, hb, hc, hd]

theorem parseStringBody_escape (fuel : Nat) (e x : Char) (rest : List Char) (hu : e ≠ 'u')
    (hx : (if e = '"' then some '"'
            else if e = '\\' then some '\\'
            else if e = '/' then some '/'
            else if e = 'b' then some (Char.ofNat 8)
            else if e = 'f' then some (Char.ofNat 12)
            else if e = 'n' then some '\n'
            else if e = 'r' then some '\r'
            else if e = 't' then some '\t'
            else none) = some x) :
    parseStringBody (fuel + 1) ('\\' :: e :: rest)
      = (parseStringBody fuel rest).map fun p => (x :: p.1, p.2) := by
  have h1 : ¬ ('\\' : Char) = '"' := by decide
  simp only [parseStringBody, if_neg h1, if_true, if_neg hu, hx]

theorem parseStringBody_unicode (fuel n : Nat) (a b c d : Char) (rest : List Char)
    (h : getu4 ('\\' :: 'u' :: a :: b :: c :: d :: rest) = some (n, rest))
    (hs : isSurrogate n = false) :
    parseStringBody (fuel + 1) ('\\' :: 'u' :: a :: b :: c :: d :: rest)
      = (parseStringBody fuel rest).map fun p => (Char.ofNat n :: p.1, p.2) := by
  have h1 : ¬ ('\\' : Char) = '"' := by decide
  simp only [parseStringBody, if_neg h1, if_true, h, hs]
  simp

theorem char_eq_of_toNat (c : Char) (n : Nat) (h : c.toNat = n) : c = Char.ofNat n := by
  rw [← h]; exact (Char.ofNat_toNat c).symm

/-- One encoded character is read back by one step of the scanner. -/
theorem parseStringBody_encodeChar (c : Char) (fuel : Nat) (rest : List Char) :
    parseStringBody (fuel + 1) (encodeChar c ++ rest)
      = (parseStringBody fuel rest).map fun p => (c :: p.1, p.2) := by
  unfold encodeChar
  split
  · rename_i h
    rcases h with rfl | rfl
    · exact parseStringBody_escape fuel _ _ rest (by decide) (by decide)
    · exact parseStringBody_escape fuel _ _ rest (by decide) (by decide)
  split
  · rename_i h
    rw [char_eq_of_toNat c 8 h]
    exact parseStringBody_escape fuel _ _ rest (by decide) (by decide)
  split
  · rename_i h
    rw [char_eq_of_toNat c 12 h]
    exact parseStringBody_escape fuel _ _ rest (by decide) (by decide)
  split
  · rename_i h; subst h
    exact parseStringBody_escape fuel _ _ rest (by decide) (by decide)
  split
  · rename_i h; subst h
    exact parseStringBody_escape fuel _ _ rest (by decide) (by decide)
  split
  · rename_i h; subst h
    exact parseStringBody_escape fuel _ _ rest (by decide) (by decide)
  split
  · rename_i h
    have hlt : c.toNat < 64 := by
      rcases h with h | rfl | rfl | rfl
      · omega
      · decide
      · decide
      · decide
    have hg := getu4_escape '0' '0' (hexDigit (c.toNat / 16)) (hexDigit (c.toNat % 16)) rest
      0 0 (c.toNat / 16) (c.toNat % 16) (by decide) (by decide)
      (hexValue_hexDigit _ (by omega)) (hexValue_hexDigit _ (by omega))
    have hn : ((0 * 16 + 0) * 16 + c.toNat / 16) * 16 + c.toNat % 16 = c.toNat := by omega
    rw [hn] at hg
    have := parseStringBody_unicode fuel c.toNat _ _ _ _ rest hg
      (by unfold isSurrogate; simp; omega)
    rw [Char.ofNat_toNat] at this
    exact this
  split
  · rename_i h
    have hg := getu4_escape '2' '0' '2' (hexDigit (c.toNat % 16)) rest
      2 0 2 (c.toNat % 16) (by decide) (by decide) (by decide)
      (hexValue_hexDigit _ (by omega))
    have hn : ((2 * 16 + 0) * 16 + 2) * 16 + c.toNat % 16 = c.toNat := by omega
    rw [hn] at hg
    have := parseStringBody_unicode fuel c.toNat _ _ _ _ rest hg
      (by unfold isSurrogate; simp; omega)
    rw [Char.ofNat_toNat] at this
    exact this
  · rename_i h1 h2 h3 h4 h5 h6 h7 h8
    have hq : ¬ c = '"' := fun h => h1 (Or.inr h)
    have hb : ¬ c = '\\' := fun h => h1 (Or.inl h)
    have hl : ¬ c.toNat < 0x20 := fun h => h7 (Or.inl h)
    rw [List.singleton_append]
    simp only [parseStringBody, if_neg hq, if_neg hb, if_neg hl]

theorem encodeChar_length_pos (c : Char) : 0 < (encodeChar c).length := by
  unfold encodeChar
  repeat' split
  all_goals simp

theorem parseStringBody_flatMap_encodeChar (cs rest : List Char) :
    ∀ fuel, cs.length < fuel →
      parseStringBody fuel (cs.flatMap encodeChar ++ '"' :: rest) = some (cs, rest) := by
  induction cs with
  | nil =>
    intro fuel hf
    obtain ⟨f, rfl⟩ : ∃ f, fuel = f + 1 := ⟨fuel - 1, by simp at hf; omega⟩
    simp [parseStringBody]
  | cons c cs ih =>
    intro fuel hf
    obtain ⟨f, rfl⟩ : ∃ f, fuel = f + 1 := ⟨fuel - 1, by simp at hf; omega⟩
    rw [List.flatMap_cons, List.append_assoc, parseStringBody_encodeChar,
      ih f (by simp at hf; omega)]
    rfl

theorem length_le_flatMap_encodeChar (cs : List Char) :
    cs.length ≤ (cs.flatMap encodeChar).length := by
  induction cs with
  | nil => simp
  | cons c cs ih =>
    have := encodeChar_length_pos c
    rw [List.flatMap_cons, List.length_append, List.length_cons]
    omega

/-- An encoded string is read back as that string. -/
theorem parseValue_encodeString (s : String) (fuel depth : Nat) (rest : List Char) :
    parseValue (fuel + 1) depth (encodeString s ++ rest) = some (JSON.str s, rest) := by
  have hs := parseStringBody_flatMap_encodeChar s.data rest
    ((s.data.flatMap encodeChar ++ '"' :: rest).length + 1)
    (by have := length_le_flatMap_encodeChar s.data
        simp only [List.length_append, List.length_cons]; omega)
  have he : encodeString s ++ rest = '"' :: (s.data.flatMap encodeChar ++ '"' :: rest) := by
    simp [encodeString]
  rw [he]
  unfold parseValue
  have h1 : ¬ ('"' : Char) = '{' := by decide
  have h2 : ¬ ('"' : Char) = '[' := by decide
  simp only [if_neg h1, if_neg h2, if_true, hs]
  rfl


/-! ## Encoding and decoding of a payload without error -/

theorem encodeString_eq_cons (s : String) :
    encodeString s = '"' :: (s.data.flatMap encodeChar ++ ['"']) := rfl

theorem encodeElements_cons_eq (x : String) (xs : List String) :
    ∃ tail, encodeElements (x :: xs) = '"' :: tail := by
  cases xs with
  | nil => exact ⟨_, rfl⟩
  | cons y ys => exact ⟨_, rfl⟩

theorem parseElements_strings (xs : List String) (depth : Nat) (rest : List Char) :
    ∀ (x : String) (fuel : Nat), xs.length + 1 < fuel →
      parseElements fuel depth (encodeElements (x :: xs) ++ ']' :: rest)
        = some ((x :: xs).map JSON.str, rest) := by
  induction xs with
  | nil =>
    intro x fuel hf
    obtain ⟨f, rfl⟩ : ∃ f, fuel = f + 2 := ⟨fuel - 2, by simp at hf; omega⟩
    have hv := parseValue_encodeString x f depth (']' :: rest)
    have hs : skipSpace (']' :: rest) = ']' :: rest := skipSpace_cons _ _ (by decide)
    unfold parseElements
    simp only [encodeElements, hv, hs, if_true]
    rfl
  | cons y ys ih =>
    intro x fuel hf
    obtain ⟨f, rfl⟩ : ∃ f, fuel = f + 2 := ⟨fuel - 2, by simp at hf; omega⟩
    have hv := parseValue_encodeString x f depth
      (',' :: (encodeElements (y :: ys) ++ ']' :: rest))
    have hs : skipSpace (',' :: (encodeElements (y :: ys) ++ ']' :: rest))
        = ',' :: (encodeElements (y :: ys) ++ ']' :: rest) := skipSpace_cons _ _ (by decide)
    obtain ⟨tail, ht⟩ := encodeElements_cons_eq y ys
    have hs2 : skipSpace (encodeElements (y :: ys) ++ ']' :: rest)
        = encodeElements (y :: ys) ++ ']' :: rest := by
      rw [ht]; exact skipSpace_cons _ _ (by decide)
    have hrec := ih y (f + 1) (by simp at hf ⊢; omega)
    have he : encodeElements (x :: y :: ys) ++ ']' :: rest
        = encodeString x ++ ',' :: (encodeElements (y :: ys) ++ ']' :: rest) := by
      simp [encodeElements]
    rw [he]
    unfold parseElements
    have h1 : ¬ (',' : Char) = ']' := by decide
    simp only [hv, hs, if_neg h1, if_true, hs2, hrec]
    rfl

theorem parseValue_encodePath (path : Option (List String)) (rest : List Char) (fuel : Nat)
    (hf : (path.getD []).length + 2 < fuel) :
    parseValue fuel 1 (encodePath path ++ rest) = some (pathValue path, rest) := by
  obtain ⟨f, rfl⟩ : ∃ f, fuel = f + 1 := ⟨fuel - 1, by omega⟩
  have hd : ¬ maxNestingDepth ≤ 1 := by decide
  cases path with
  | none =>
    unfold parseValue
    simp [encodePath, pathValue, dropLiteral]
  | some xs =>
    cases xs with
    | nil =>
      have hs : skipSpace (']' :: rest) = ']' :: rest := skipSpace_cons _ _ (by decide)
      unfold parseValue
      simp [encodePath, pathValue, encodeElements, hs, hd]
    | cons x xs =>
      simp only [Option.getD_some, List.length_cons] at hf
      have he := parseElements_strings xs 2 rest x f (by omega)
      obtain ⟨tail, ht⟩ := encodeElements_cons_eq x xs
      have hs : skipSpace (encodeElements (x :: xs) ++ ']' :: rest)
          = encodeElements (x :: xs) ++ ']' :: rest := by
        rw [ht]; exact skipSpace_cons _ _ (by decide)
      have hc : encodePath (some (x :: xs)) ++ rest
          = '[' :: (encodeElements (x :: xs) ++ ']' :: rest) := by
        simp [encodePath]
      rw [hc]
      unfold parseValue
      have h1 : ¬ ('[' : Char) = '{' := by decide
      simp only [if_neg h1, if_true, if_neg hd, hs]
      rw [ht] at he ⊢
      have h2 : ¬ ('"' : Char) = ']' := by decide
      simp only [List.cons_append, if_neg h2] at he ⊢
      rw [he]
      rfl

theorem encodePath_skipSpace (path : Option (List String)) (rest : List Char) :
    skipSpace (encodePath path ++ rest) = encodePath path ++ rest := by
  cases path with
  | none => exact skipSpace_cons _ _ (by decide)
  | some xs => exact skipSpace_cons _ _ (by decide)

theorem encodePath_length (path : Option (List String)) :
    (path.getD []).length + 2 ≤ (encodePath path).length := by
  cases path with
  | none => simp [encodePath]
  | some xs =>
    have key : ∀ ys : List String, ys.length ≤ (encodeElements ys).length := by
      intro ys
      induction ys with
      | nil => simp
      | cons y ys ih =>
        cases ys with
        | nil => simp [encodeElements, encodeString]
        | cons z zs =>
          simp only [encodeElements, List.length_append, List.length_cons] at ih ⊢
          omega
    have := key xs
    simp only [encodePath, Option.getD_some, List.length_cons, List.length_append,
      List.length_nil]
    omega

theorem marshalResponse_eq (path : Option (List String)) :
    (marshalResponse { Path := path, Error := none }).data
      = '{' :: '"' :: (['p', 'a', 't', 'h'] ++ '"' :: ':' :: (encodePath path ++
          ',' :: '"' :: (['e', 'r', 'r', 'o', 'r'] ++ '"' :: ':' :: ['n', 'u', 'l', 'l', '}']))) := by
  simp [marshalResponse, encodeErrorValue]

theorem parseJSON_marshalResponse (path : Option (List String)) :
    parseJSON (marshalResponse { Path := path, Error := none })
      = some (JSON.obj [("path", pathValue path), ("error", JSON.null)]) := by
  unfold parseJSON
  rw [marshalResponse_eq]
  rw [skipSpace_cons _ _ (by decide)]
  have hlen := encodePath_length path
  generalize hF : 2 * ('{' :: '"' :: (['p', 'a', 't', 'h'] ++ '"' :: ':' :: (encodePath path ++
          ',' :: '"' :: (['e', 'r', 'r', 'o', 'r'] ++ '"' :: ':' ::
            ['n', 'u', 'l', 'l', '}'])))).length + 2 = fuel
  obtain ⟨f, rfl⟩ : ∃ f, fuel = f + 3 := ⟨fuel - 3, by
    rw [← hF]; simp only [List.length_cons, List.length_append]; omega⟩
  have hf : (path.getD []).length + 2 < f + 1 := by
    simp only [List.length_cons, List.length_append, List.length_nil] at hF
    omega
  have hkey1 := parseStringBody_plain ['p', 'a', 't', 'h']
    (':' :: (encodePath path ++
      ',' :: '"' :: (['e', 'r', 'r', 'o', 'r'] ++ '"' :: ':' :: ['n', 'u', 'l', 'l', '}'])))
    (by unfold isPlain; decide)
    ((['p', 'a', 't', 'h'] ++ '"' :: ':' :: (encodePath path ++
      ',' :: '"' :: (['e', 'r', 'r', 'o', 'r'] ++ '"' :: ':' ::
        ['n', 'u', 'l', 'l', '}']))).length + 1) (by simp)
  have hkey2 := parseStringBody_plain ['e', 'r', 'r', 'o', 'r'] (':' :: ['n', 'u', 'l', 'l', '}'])
    (by unfold isPlain; decide)
    ((['e', 'r', 'r', 'o', 'r'] ++ '"' :: ':' :: ['n', 'u', 'l', 'l', '}']).length + 1)
    (by decide)
  have hval := parseValue_encodePath path
    (',' :: '"' :: (['e', 'r', 'r', 'o', 'r'] ++ '"' :: ':' :: ['n', 'u', 'l', 'l', '}']))
    (f + 1) hf
  have hnull : parseValue f 1 ['n', 'u', 'l', 'l', '}'] = some (JSON.null, ['}']) := by
    obtain ⟨g, rfl⟩ : ∃ g, f = g + 1 := ⟨f - 1, by omega⟩
    unfold parseValue
    simp [dropLiteral]
  have hmem2 : parseMembers (f + 1) 1
      ('"' :: (['e', 'r', 'r', 'o', 'r'] ++ '"' :: ':' :: ['n', 'u', 'l', 'l', '}']))
      = some ([("error", JSON.null)], []) := by
    unfold parseMembers
    have s1 : skipSpace (':' :: ['n', 'u', 'l', 'l', '}']) = ':' :: ['n', 'u', 'l', 'l', '}'] :=
      skipSpace_cons _ _ (by decide)
    have s2 : skipSpace ['n', 'u', 'l', 'l', '}'] = ['n', 'u', 'l', 'l', '}'] :=
      skipSpace_cons _ _ (by decide)
    have s3 : skipSpace ['}'] = ['}'] := skipSpace_cons _ _ (by decide)
    simp only [if_true, hkey2, s1, s2, hnull, s3]
  have hmem1 : parseMembers (f + 2) 1
      ('"' :: (['p', 'a', 't', 'h'] ++ '"' :: ':' :: (encodePath path ++
          ',' :: '"' :: (['e', 'r', 'r', 'o', 'r'] ++ '"' :: ':' :: ['n', 'u', 'l', 'l', '}']))))
      = some ([("path", pathValue path), ("error", JSON.null)], []) := by
    unfold parseMembers
    have s1 : skipSpace (':' :: (encodePath path ++
          ',' :: '"' :: (['e', 'r', 'r', 'o', 'r'] ++ '"' :: ':' :: ['n', 'u', 'l', 'l', '}'])))
        = ':' :: (encodePath path ++
          ',' :: '"' :: (['e', 'r', 'r', 'o', 'r'] ++ '"' :: ':' :: ['n', 'u', 'l', 'l', '}'])) :=
      skipSpace_cons _ _ (by decide)
    have s2 := encodePath_skipSpace path
      (',' :: '"' :: (['e', 'r', 'r', 'o', 'r'] ++ '"' :: ':' :: ['n', 'u', 'l', 'l', '}']))
    have s3 : skipSpace
        (',' :: '"' :: (['e', 'r', 'r', 'o', 'r'] ++ '"' :: ':' :: ['n', 'u', 'l', 'l', '}']))
        = ',' :: '"' :: (['e', 'r', 'r', 'o', 'r'] ++ '"' :: ':' :: ['n', 'u', 'l', 'l', '}']) :=
      skipSpace_cons _ _ (by decide)
    have s4 : skipSpace
        ('"' :: (['e', 'r', 'r', 'o', 'r'] ++ '"' :: ':' :: ['n', 'u', 'l', 'l', '}']))
        = '"' :: (['e', 'r', 'r', 'o', 'r'] ++ '"' :: ':' :: ['n', 'u', 'l', 'l', '}']) :=
      skipSpace_cons _ _ (by decide)
    have h1 : ¬ (',' : Char) = '}' := by decide
    simp only [if_true, hkey1, s1, s2, hval, s3, if_neg h1, s4, hmem2]
    rfl
  unfold parseValue
  have hs : ∀ r : List Char, skipSpace ('"' :: r) = '"' :: r :=
    fun r => skipSpace_cons _ _ (by decide)
  have hd : ¬ maxNestingDepth ≤ 0 := by decide
  have hq : ¬ ('"' : Char) = '}' := by decide
  simp only [if_true, hs, if_neg hd, if_neg hq, hmem1]
  rfl

theorem decodeElements_strings (xs : List String) :
    decodeElements (xs.map JSON.str) [] = (xs, [], false) := by
  induction xs with
  | nil => rfl
  | cons x xs ih => simp [decodeElements, ih]

theorem unmarshalResponse_pathValue (path : Option (List String)) :
    unmarshalResponse (JSON.obj [("path", pathValue path), ("error", JSON.null)])
      = .ok { Path := path, Error := none } := by
  have h1 : responseField "path" = some .path := by decide
  have h2 : responseField "error" = some .error := by decide
  cases path with
  | none => simp [unmarshalResponse, decodeMember, h1, h2, pathValue, decodePath, decodeError]
  | some xs =>
    cases xs with
    | nil => simp [unmarshalResponse, decodeMember, h1, h2, pathValue, decodePath, decodeError]
    | cons x xs =>
      have hd := decodeElements_strings (x :: xs)
      simp only [List.map_cons] at hd
      simp [unmarshalResponse, decodeMember, h1, h2, pathValue, decodePath, decodeError, hd]

/-- A payload without error is read back by `parseResponse` from its encoding: the
path, nil, empty or not, is preserved. -/
theorem parseResponse_marshalResponse (path : Option (List String)) :
    parseResponse (marshalResponse { Path := path, Error := none })
      = .ok { Path := path, Error := none } := by
  unfold parseResponse
  rw [parseJSON_marshalResponse]
  exact unmarshalResponse_pathValue path

/-- No payload with a non-nil error is read back by `parseResponse`, whatever bytes it
is given. -/
theorem parseResponse_ne_of_error (body : String) (p : ResponsePayload) (e : ErrorValue)
    (h : p.Error = some e) : parseResponse body ≠ .ok p := by
  intro hp
  rw [parseResponse_ok_error body p hp] at h
  cases h

/-! ## The text of an identity determines the identity -/

theorem hexDigit_injective (m n : Nat) (hm : m < 16) (hn : n < 16)
    (h : hexDigit m = hexDigit n) : m = n := by
  have h1 := hexValue_hexDigit m hm
  rw [h, hexValue_hexDigit n hn] at h1
  exact (Option.some.inj h1).symm

theorem hexEncode_length (bs : List (Fin 256)) : (hexEncode bs).length = 2 * bs.length := by
  induction bs with
  | nil => rfl
  | cons b bs ih => simp only [hexEncode, List.length_cons, ih]; omega

theorem hexEncode_injective : ∀ xs ys : List (Fin 256), hexEncode xs = hexEncode ys → xs = ys := by
  intro xs
  induction xs with
  | nil =>
    intro ys h
    cases ys with
    | nil => rfl
    | cons y ys => simp [hexEncode] at h
  | cons x xs ih =>
    intro ys h
    cases ys with
    | nil => simp [hexEncode] at h
    | cons y ys =>
      simp only [hexEncode, List.cons.injEq] at h
      obtain ⟨h1, h2, h3⟩ := h
      have hx := x.isLt
      have hy := y.isLt
      have e1 := hexDigit_injective _ _ (by omega) (by omega) h1
      have e2 := hexDigit_injective _ _ (by omega) (by omega) h2
      have : x = y := Fin.ext (by omega)
      rw [this, ih ys h3]

/-- Two identities with the same text are equal. -/
theorem UUID_String_injective : Function.Injective UUID.String := by
  intro u v h
  have h0 : encodeHex u = encodeHex v := by
    have := congrArg String.data h
    exact this
  obtain ⟨ub, us⟩ := u
  obtain ⟨vb, vs⟩ := v
  simp only [encodeHex] at h0
  have l1 : (hexEncode (ub.take 4)).length = (hexEncode (vb.take 4)).length := by
    simp [hexEncode_length, us, vs]
  have l2 : (hexEncode ((ub.drop 4).take 2)).length = (hexEncode ((vb.drop 4).take 2)).length := by
    simp [hexEncode_length, us, vs]
  have l3 : (hexEncode ((ub.drop 6).take 2)).length = (hexEncode ((vb.drop 6).take 2)).length := by
    simp [hexEncode_length, us, vs]
  have l4 : (hexEncode ((ub.drop 8).take 2)).length = (hexEncode ((vb.drop 8).take 2)).length := by
    simp [hexEncode_length, us, vs]
  simp only [List.append_assoc, List.cons_append] at h0
  obtain ⟨a1, r1⟩ := List.append_inj h0 l1
  obtain ⟨a2, r2⟩ := List.append_inj (List.cons.inj r1).2 l2
  obtain ⟨a3, r3⟩ := List.append_inj (List.cons.inj r2).2 l3
  obtain ⟨a4, r4⟩ := List.append_inj (List.cons.inj r3).2 l4
  have a5 := (List.cons.inj r4).2
  have e1 := hexEncode_injective _ _ a1
  have e2 := hexEncode_injective _ _ a2
  have e3 := hexEncode_injective _ _ a3
  have e4 := hexEncode_injective _ _ a4
  have e5 := hexEncode_injective _ _ a5
  have hu : ub = ub.take 4 ++ ((ub.drop 4).take 2 ++ ((ub.drop 6).take 2 ++
      ((ub.drop 8).take 2 ++ ub.drop 10))) := by
    conv_lhs => rw [← List.take_append_drop 4 ub, ← List.take_append_drop 2 (ub.drop 4),
      List.drop_drop, ← List.take_append_drop 2 (ub.drop (2 + 4)), List.drop_drop,
      ← List.take_append_drop 2 (ub.drop (2 + (2 + 4))), List.drop_drop]
  have hv : vb = vb.take 4 ++ ((vb.drop 4).take 2 ++ ((vb.drop 6).take 2 ++
      ((vb.drop 8).take 2 ++ vb.drop 10))) := by
    conv_lhs => rw [← List.take_append_drop 4 vb, ← List.take_append_drop 2 (vb.drop 4),
      List.drop_drop, ← List.take_append_drop 2 (vb.drop (2 + 4)), List.drop_drop,
      ← List.take_append_drop 2 (vb.drop (2 + (2 + 4))), List.drop_drop]
  have : ub = vb := by rw [hu, hv, e1, e2, e3, e4, e5]
  subst this
  rfl

/-! ## Statistics -/

theorem foldl_add_eq_sum (f : Duration → ℚ) (xs : List Duration) :
    ∀ acc : ℚ, xs.foldl (fun a x => a + f x) acc = acc + (xs.map f).sum := by
  induction xs with
  | nil => intro acc; simp
  | cons x xs ih => intro acc; simp only [List.foldl_cons, List.map_cons, List.sum_cons, ih]; ring

theorem meanOf_eq (samples : List Duration) :
    meanOf samples = (samples.map fun (x : Duration) => (x : ℚ)).sum / (samples.length : ℚ) := by
  unfold meanOf
  rw [foldl_add_eq_sum (fun x => (x : ℚ))]; simp

theorem sdSquaredOf_eq (samples : List Duration) :
    sdSquaredOf samples =
      (samples.map fun (x : Duration) => ((x : ℚ) - meanOf samples) ^ 2).sum / (samples.length : ℚ) := by
  unfold sdSquaredOf
  rw [foldl_add_eq_sum (fun x => ((x : ℚ) - meanOf samples) ^ 2)]; simp

theorem sdSquaredOf_nonneg (samples : List Duration) : 0 ≤ sdSquaredOf samples := by
  rw [sdSquaredOf_eq]
  apply div_nonneg
  · apply List.sum_nonneg
    intro x hx
    obtain ⟨a, _, rfl⟩ := List.mem_map.mp hx
    exact sq_nonneg _
  · exact Nat.cast_nonneg _

/-! ## Claims -/

/-- C1 (defect of the code).  The body `{"path":null,"error":"no path"}` is a JSON
object whose member `error` is the string `no path`; `parseResponse` rejects it with a
type error, so the run whose first reply it is returns that error after one publish,
with no sample, and publishes nothing more.  A payload already decoded with a non-nil
`Error` would instead be retried by the loop. -/
theorem error_reply_is_fatal :
    stringMember noPathBody "error" = some "no path" ∧
    parseResponse noPathBody = .error (.unmarshalTypeError "error") ∧
    (benchmark firstReplyErrorEnv sampleUUID 2).control
      = .returned (some (.unmarshalTypeError "error")) ∧
    (benchmark firstReplyErrorEnv sampleUUID 2).publishes = 1 ∧
    (benchmark firstReplyErrorEnv sampleUUID 2).samples = [] ∧
    (benchmark firstReplyErrorEnv sampleUUID 50).publishes = 1 ∧
    (classify firstReplyErrorEnv (benchmark firstReplyErrorEnv sampleUUID 1) 0
      (.ok { Path := none, Error := some ⟨"no path"⟩ })).control = .loopHead := by
  refine ⟨by rfl, by rfl, by decide, by decide, by decide, by decide, by decide⟩

/-- C2 (defect of the code).  In the run that the claim names, with target count 3 and
a second reply that carries the domain error `no path`, the loop makes 2 publishes and
2 receives, collects 1 sample and returns the type error of `parseResponse`, without a
report; it stays so at step 9, where the claim has 4 publishes and 3 samples.  The
program as written, with `SAMPLES_SIZE`, does the same on these replies.  No run of the
program counts a domain error, since no body is decoded to a non-nil `Error`. -/
theorem retry_run_aborts :
    stringMember (secondReplyErrorEnv.delivery 1) "error" = some "no path" ∧
    (benchmarkWith parseResponse secondReplyErrorEnv 3 sampleUUID 4).control
      = .returned (some (.unmarshalTypeError "error")) ∧
    (benchmarkWith parseResponse secondReplyErrorEnv 3 sampleUUID 4).publishes = 2 ∧
    (benchmarkWith parseResponse secondReplyErrorEnv 3 sampleUUID 4).received = 2 ∧
    (benchmarkWith parseResponse secondReplyErrorEnv 3 sampleUUID 4).samples.length = 1 ∧
    (benchmarkWith parseResponse secondReplyErrorEnv 3 sampleUUID 4).reported = false ∧
    (benchmarkWith parseResponse secondReplyErrorEnv 3 sampleUUID 9).control
      = .returned (some (.unmarshalTypeError "error")) ∧
    (benchmarkWith parseResponse secondReplyErrorEnv 3 sampleUUID 9).publishes = 2 ∧
    (benchmarkWith parseResponse secondReplyErrorEnv 3 sampleUUID 9).samples.length = 1 ∧
    (benchmark secondReplyErrorEnv sampleUUID 4).control
      = .returned (some (.unmarshalTypeError "error")) ∧
    (benchmark secondReplyErrorEnv sampleUUID 50).publishes = 2 ∧
    (benchmark secondReplyErrorEnv sampleUUID 50).samples.length = 1 ∧
    (∀ (env : Env) (m : Nat), domainErrors parseResponse env m = 0) :=
  ⟨by rfl, by decide, by decide, by decide, by decide, by decide, by decide, by decide,
    by decide, by decide, by decide, by decide, domainErrors_parseResponse⟩

/-- C4.  For a non-empty sample sequence the report carries the mean, which is the sum
of the samples divided by their number `N`, and the argument of the square root, which
is `(1/N)` times the sum of the squared deviations from the mean; the standard deviation
is the square root of that argument, so its square is that argument.  For the samples
100 ms, 200 ms and 300 ms (in nanoseconds) the mean is 200 ms, the squared standard
deviation is 20000/3 ms², which is not the value 10000 ms² of the divisor `N - 1`, and
the standard deviation lies between 81.64 ms and 81.66 ms. -/
theorem statistics_are_population (s : State) (h : s.samples ≠ []) :
    (report s).log
      = s.log ++ [.averageRTT (meanOf s.samples) (sdSquaredOf s.samples)] ∧
    meanOf s.samples = (s.samples.map fun (x : Duration) => (x : ℚ)).sum / (s.samples.length : ℚ) ∧
    sdSquaredOf s.samples
      = (1 / (s.samples.length : ℚ)) *
          (s.samples.map fun (x : Duration) => ((x : ℚ) - meanOf s.samples) ^ 2).sum ∧
    Real.sqrt ((sdSquaredOf s.samples : ℚ) : ℝ) ^ 2 = ((sdSquaredOf s.samples : ℚ) : ℝ) ∧
    meanOf [100000000, 200000000, 300000000] = 200000000 ∧
    sdSquaredOf [100000000, 200000000, 300000000] = 20000 / 3 * 1000000 ^ 2 ∧
    sdSquaredOf [100000000, 200000000, 300000000] ≠ 10000 * 1000000 ^ 2 ∧
    (81640000 : ℝ) < Real.sqrt ((sdSquaredOf [100000000, 200000000, 300000000] : ℚ) : ℝ) ∧
    Real.sqrt ((sdSquaredOf [100000000, 200000000, 300000000] : ℚ) : ℝ) < 81660000 := by
  have hm : meanOf [100000000, 200000000, 300000000] = 200000000 := by
    rw [meanOf_eq]; norm_num
  have hv : sdSquaredOf [100000000, 200000000, 300000000] = 20000 / 3 * 1000000 ^ 2 := by
    rw [sdSquaredOf_eq, hm]; norm_num
  have _hne : s.samples.length ≠ 0 := fun h0 => h (List.length_eq_zero.mp h0)
  refine ⟨rfl, meanOf_eq _, ?_, ?_, hm, hv, ?_, ?_, ?_⟩
  · rw [sdSquaredOf_eq]; ring
  · exact Real.sq_sqrt (by exact_mod_cast sdSquaredOf_nonneg s.samples)
  · rw [hv]; norm_num
  · rw [hv]
    apply Real.lt_sqrt_of_sq_lt
    norm_num
  · rw [hv]
    rw [Real.sqrt_lt' (by norm_num)]
    norm_num

/-- Witness for C4: the state reached when the samples 100 ms, 200 ms and 300 ms have
been collected. -/
theorem statistics_are_population_witness :
    (report { State.initial sampleUUID with samples := [100000000, 200000000, 300000000] }).log
      = [.averageRTT (meanOf [100000000, 200000000, 300000000])
          (sdSquaredOf [100000000, 200000000, 300000000])] ∧
    meanOf [100000000, 200000000, 300000000]
      = (([100000000, 200000000, 300000000] : List Duration).map
          fun (x : Duration) => (x : ℚ)).sum / ((3 : Nat) : ℚ) :=
  ⟨(statistics_are_population
      { State.initial sampleUUID with samples := [100000000, 200000000, 300000000] }
      (by decide)).1,
    (statistics_are_population
      { State.initial sampleUUID with samples := [100000000, 200000000, 300000000] }
      (by decide)).2.1⟩

/-- C5.  With target count 1, a first publish that succeeds and a first reply that
decodes to a payload with a nil `Error`, the run returns nil after three steps, having
made one publish and one receive; it never changes afterwards; the single sample is the
elapsed time between the two clock readings, the reported mean is that sample and the
reported standard deviation is the square root of zero, which is zero. -/
theorem single_success_run (env : Env) (u : UUID) (p : ResponsePayload)
    (hpub : env.publishResult 0 = none)
    (hdec : parseResponse (env.delivery 0) = .ok p) (herr : p.Error = none) :
    (benchmarkWith parseResponse env 1 u 3).control = .returned none ∧
    (benchmarkWith parseResponse env 1 u 3).publishes = 1 ∧
    (benchmarkWith parseResponse env 1 u 3).received = 1 ∧
    (∀ j, benchmarkWith parseResponse env 1 u (3 + j) = benchmarkWith parseResponse env 1 u 3) ∧
    (benchmarkWith parseResponse env 1 u 3).samples = [env.now 1 - env.now 0] ∧
    (benchmarkWith parseResponse env 1 u 3).log
      = [.shortestPath p.Path,
         .averageRTT (meanOf [env.now 1 - env.now 0]) (sdSquaredOf [env.now 1 - env.now 0])] ∧
    meanOf [env.now 1 - env.now 0] = ((env.now 1 - env.now 0 : Int) : ℚ) ∧
    sdSquaredOf [env.now 1 - env.now 0] = 0 ∧
    Real.sqrt ((sdSquaredOf [env.now 1 - env.now 0] : ℚ) : ℝ) = 0 := by
  have hm : meanOf [env.now 1 - env.now 0] = ((env.now 1 - env.now 0 : Int) : ℚ) := by
    rw [meanOf_eq]; simp
  have hv : sdSquaredOf [env.now 1 - env.now 0] = 0 := by
    rw [sdSquaredOf_eq, hm]; simp
  have hrun : benchmarkWith parseResponse env 1 u 3 =
      { clientUUID := u, i := 0 + 1, samples := [env.now 1 - env.now 0],
        control := .returned none, clock := 2,
        published := [String.mk
          ("\x7b\"ori\":".data ++ encodeString "A" ++ ",\"dest\":".data ++ encodeString "E" ++
            ",\"client_uuid\":".data ++ encodeString u.String ++ "\x7d".data)],
        received := 1,
        log := [.shortestPath p.Path,
          .averageRTT (meanOf [env.now 1 - env.now 0]) (sdSquaredOf [env.now 1 - env.now 0])] } := by
    simp [benchmarkWith, step, State.initial, publishRequest, createRequest, marshalRequest,
      hpub, hdec, herr, classify, report]
  refine ⟨?_, ?_, ?_, ?_, ?_, ?_, hm, hv, ?_⟩
  · rw [hrun]
  · rw [hrun]; rfl
  · rw [hrun]
  · exact benchmarkWith_stable parseResponse env 1 u 3 none (by rw [hrun])
  · rw [hrun]
  · rw [hrun]
  · rw [hv]; simp

/-- Witness for C5: a run whose first reply carries a path. -/
theorem single_success_run_witness :
    (benchmarkWith parseResponse steadyEnv 1 sampleUUID 3).control = .returned none ∧
    (benchmarkWith parseResponse steadyEnv 1 sampleUUID 3).publishes = 1 ∧
    (benchmarkWith parseResponse steadyEnv 1 sampleUUID 3).received = 1 :=
  ⟨(single_success_run steadyEnv sampleUUID { Path := some ["A", "B", "E"], Error := none }
      (by decide) (by rfl) (by rfl)).1,
    (single_success_run steadyEnv sampleUUID { Path := some ["A", "B", "E"], Error := none }
      (by decide) (by rfl) (by rfl)).2.1,
    (single_success_run steadyEnv sampleUUID { Path := some ["A", "B", "E"], Error := none }
      (by decide) (by rfl) (by rfl)).2.2.1⟩

/-- C6 (defect of the code).  The payload with a nil path and the error built by
`errors.New("no path")` is encoded as `{"path":null,"error":{}}`, and `parseResponse`
rejects these bytes with a type error instead of returning the payload; indeed no bytes
at all are decoded to a payload with a non-nil error.  The rest of the law holds (for
labels that are valid UTF-8): every payload with a nil error, whatever its path, is read
back from its encoding; the body built by `createRequest` carries the members `ori`,
`dest` and `client_uuid` with the values encoded; and the text of an identity determines
the identity. -/
theorem error_payload_does_not_round_trip :
    marshalResponse { Path := none, Error := some ⟨"no path"⟩ }
      = "\x7b\"path\":null,\"error\":\x7b\x7d\x7d" ∧
    parseResponse (marshalResponse { Path := none, Error := some ⟨"no path"⟩ })
      = .error (.unmarshalTypeError "error") ∧
    (∀ (path : Option (List String)) (e : ErrorValue) (body : String),
      parseResponse body ≠ .ok { Path := path, Error := some e }) ∧
    (∀ path : Option (List String),
      parseResponse (marshalResponse { Path := path, Error := none })
        = .ok { Path := path, Error := none }) ∧
    (∀ u : UUID, ∃ body, createRequest u = .ok body ∧
      parseJSON body = some (JSON.obj [("ori", JSON.str "A"), ("dest", JSON.str "E"),
        ("client_uuid", JSON.str u.String)])) ∧
    Function.Injective UUID.String :=
  ⟨by decide, by rfl, fun _ e body => parseResponse_ne_of_error body _ e rfl,
    parseResponse_marshalResponse,
    fun u => ⟨_, rfl, parseJSON_request u _ rfl⟩,
    UUID_String_injective⟩

/-- C7.  Request encoding never fails, and the loop body returns an encoding error at
once, without publishing, if it is handed one.  A publish error and a decode error are
returned at once.  After an error has been returned the state never changes again (no
further publish or receive), fewer than the target number of samples have been collected
and the report has not been logged.  The report has been logged exactly in the states in
which nil has been returned, and in a returned state exactly when the target number of
samples has been collected; a state with that many samples is followed by one with the
report. -/
theorem fatal_errors_abort (env : Env) (u : UUID) (n k : Nat) :
    (∃ request, createRequest (benchmarkWith parseResponse env n u k).clientUUID = .ok request) ∧
    (∀ e, (publishRequest env (benchmarkWith parseResponse env n u k) (.error e)).control
          = .returned (some e) ∧
        (publishRequest env (benchmarkWith parseResponse env n u k) (.error e)).publishes
          = (benchmarkWith parseResponse env n u k).publishes) ∧
    (∀ e, (benchmarkWith parseResponse env n u k).control = .loopHead →
      (benchmarkWith parseResponse env n u k).i < (n : Int) →
      env.publishResult (benchmarkWith parseResponse env n u k).publishes = some e →
      (benchmarkWith parseResponse env n u (k + 1)).control = .returned (some e)) ∧
    (∀ start e, (benchmarkWith parseResponse env n u k).control = .awaitReply start →
      parseResponse (env.delivery (benchmarkWith parseResponse env n u k).received) = .error e →
      (benchmarkWith parseResponse env n u (k + 1)).control = .returned (some e)) ∧
    (∀ e, (benchmarkWith parseResponse env n u k).control = .returned (some e) →
      (benchmarkWith parseResponse env n u k).reported = false ∧
        (benchmarkWith parseResponse env n u k).samples.length < n ∧
        ∀ j, benchmarkWith parseResponse env n u (k + j) = benchmarkWith parseResponse env n u k) ∧
    ((benchmarkWith parseResponse env n u k).reported = true ↔
      (benchmarkWith parseResponse env n u k).control = .returned none) ∧
    (∀ r, (benchmarkWith parseResponse env n u k).control = .returned r →
      ((benchmarkWith parseResponse env n u k).reported = true ↔
        (benchmarkWith parseResponse env n u k).samples.length = n)) ∧
    ((benchmarkWith parseResponse env n u k).samples.length = n →
      (benchmarkWith parseResponse env n u (k + 1)).reported = true) := by
  obtain ⟨_, hi, _, _, hctl⟩ := Inv_benchmarkWith parseResponse env n u k
  have hstable := benchmarkWith_stable parseResponse env n u k
  show _ ∧ _ ∧
    (∀ e, _ → _ → _ → (step parseResponse env n (benchmarkWith parseResponse env n u k)).control = _) ∧
    (∀ start e, _ → _ →
      (step parseResponse env n (benchmarkWith parseResponse env n u k)).control = _) ∧
    _ ∧ _ ∧ _ ∧
    (_ → (step parseResponse env n (benchmarkWith parseResponse env n u k)).reported = true)
  generalize benchmarkWith parseResponse env n u k = s at hi hctl hstable
  refine ⟨createRequest_ok _, fun e => ⟨rfl, rfl⟩, ?_, ?_, ?_, ?_, ?_, ?_⟩
  · intro e hc hlt hp
    obtain ⟨body, hbody⟩ := createRequest_ok s.clientUUID
    unfold step
    rw [hc]
    unfold State.publishes at hp
    simp only [if_pos hlt, hbody, publishRequest, hp]
  · intro start e hc hd
    unfold step
    rw [hc]
    simp only [hd, classify]
  · intro e hc
    rw [hc] at hctl
    exact ⟨hctl.2.2, hctl.2.1, hstable (some e) hc⟩
  · cases hc : s.control with
    | loopHead => rw [hc] at hctl; simp [hctl.2.2]
    | awaitReply start => rw [hc] at hctl; simp [hctl.2.2]
    | returned r =>
      rw [hc] at hctl
      cases r with
      | none => simp [hctl.2.2]
      | some e => simp [hctl.2.2]
  · intro r hc
    rw [hc] at hctl
    cases r with
    | none => simp [hctl.2.2, hctl.2.1]
    | some e => simp [hctl.2.2]; omega
  · intro hlen
    cases hc : s.control with
    | loopHead =>
      have hge : ¬ s.i < (n : Int) := by rw [hi, hlen]; exact lt_irrefl _
      unfold step
      rw [hc]
      simp only [if_neg hge, report, State.reported]
      rw [reported_append]; simp [LogLine.isReport]
    | awaitReply start => rw [hc] at hctl; omega
    | returned r =>
      rw [hc] at hctl
      rw [step_returned parseResponse env n s r hc]
      cases r with
      | none => exact hctl.2.2
      | some e => have := hctl.2.1; omega

/-- Witness for C7: in the program as written a failing second publish and a second
reply that is not JSON are returned at once, and the report is not logged. -/
theorem fatal_errors_abort_witness :
    ((benchmark publishFailureEnv sampleUUID (2 + 1)).control
        = .returned (some (.publishError "channel closed")) ∧
      (benchmark publishFailureEnv sampleUUID 3).reported = false ∧
      (benchmark publishFailureEnv sampleUUID 3).samples.length < SAMPLES_SIZE) ∧
    ((benchmark malformedReplyEnv sampleUUID (3 + 1)).control = .returned (some .syntaxError) ∧
      (benchmark malformedReplyEnv sampleUUID 4).reported = false ∧
      ∀ j, benchmarkWith parseResponse malformedReplyEnv SAMPLES_SIZE sampleUUID (4 + j)
        = benchmarkWith parseResponse malformedReplyEnv SAMPLES_SIZE sampleUUID 4) :=
  ⟨⟨(fatal_errors_abort publishFailureEnv sampleUUID SAMPLES_SIZE 2).2.2.1
        (.publishError "channel closed") (by decide) (by decide) (by decide),
      ((fatal_errors_abort publishFailureEnv sampleUUID SAMPLES_SIZE 3).2.2.2.2.1
        (.publishError "channel closed") (by decide)).1,
      ((fatal_errors_abort publishFailureEnv sampleUUID SAMPLES_SIZE 3).2.2.2.2.1
        (.publishError "channel closed") (by decide)).2.1⟩,
    ⟨(fatal_errors_abort malformedReplyEnv sampleUUID SAMPLES_SIZE 3).2.2.2.1
        (malformedReplyEnv.now 2) .syntaxError (by decide) (by rfl),
      ((fatal_errors_abort malformedReplyEnv sampleUUID SAMPLES_SIZE 4).2.2.2.2.1
        .syntaxError (by decide)).1,
      ((fatal_errors_abort malformedReplyEnv sampleUUID SAMPLES_SIZE 4).2.2.2.2.1
        .syntaxError (by decide)).2.2⟩⟩

/-- C8.  The routing key of the binding of the response queue is the text of the
identity set by `init`; the global keeps that value in every state of a run; and every
body handed to `PublishWithContext` is a body built by `createRequest` whose member
`client_uuid` is, as text, that routing key. -/
theorem binding_key_is_request_identity (fresh : UUID) (queue : String) (env : Env)
    (n k : Nat) :
    (main (init fresh) queue).binding.key = (init fresh).String ∧
    (benchmarkWith parseResponse env n (init fresh) k).clientUUID = init fresh ∧
    ∀ body ∈ (benchmarkWith parseResponse env n (init fresh) k).published,
      createRequest (init fresh) = .ok body ∧
        stringMember body "client_uuid" = some (main (init fresh) queue).binding.key := by
  obtain ⟨hu, _, _, hp, _⟩ := Inv_benchmarkWith parseResponse env n (init fresh) k
  exact ⟨rfl, hu, fun body hb => ⟨hp body hb, createRequest_client_uuid _ body (hp body hb)⟩⟩

/-- Witness for C8: the request published by the first step of the program as written. -/
theorem binding_key_is_request_identity_witness :
    stringMember sampleRequestBody "client_uuid"
      = some (main (init sampleUUID) "amq.gen-1").binding.key ∧
    (main (init sampleUUID) "amq.gen-1").binding.key
      = "12345678-9abc-def0-0123-456789abcdef" :=
  ⟨((binding_key_is_request_identity sampleUUID "amq.gen-1" steadyEnv SAMPLES_SIZE 1).2.2
      sampleRequestBody (by decide)).2,
    by decide⟩

/-- C9, the claim as stated fails: the response queue is declared with auto-delete
disabled. -/
theorem response_queue_autoDelete_disabled :
    ¬ ((main sampleUUID "amq.gen-1").responseQueue.name = "" ∧
        (main sampleUUID "amq.gen-1").responseQueue.durable = false ∧
        (main sampleUUID "amq.gen-1").responseQueue.autoDelete = true ∧
        (main sampleUUID "amq.gen-1").responseQueue.exclusive = true) := by
  decide

/-- C9, amended.  Whatever the identity, the response queue is declared with an empty
(server-assigned) name, non-durable, auto-delete disabled, exclusive to the owning
connection, and the call waits for the reply of the broker. -/
theorem response_queue_declaration (clientUUID : UUID) (responseQueueName : String) :
    (main clientUUID responseQueueName).responseQueue
      = { name := "", durable := false, autoDelete := false, exclusive := true,
          noWait := false } ∧
    (main clientUUID responseQueueName).responseQueue.name = "" ∧
    (main clientUUID responseQueueName).responseQueue.durable = false ∧
    (main clientUUID responseQueueName).responseQueue.autoDelete = false ∧
    (main clientUUID responseQueueName).responseQueue.exclusive = true :=
  ⟨rfl, rfl, rfl, rfl, rfl⟩

/-- C10.  In every state of a run the number of publishes is the number of replies
received or one more, and a step that publishes starts from a state in which every
request published so far has had its reply received. -/
theorem one_outstanding_request (decode : Decoder) (env : Env) (u : UUID) (n k : Nat) :
    ((benchmarkWith decode env n u k).publishes = (benchmarkWith decode env n u k).received ∨
      (benchmarkWith decode env n u k).publishes
        = (benchmarkWith decode env n u k).received + 1) ∧
    ((benchmarkWith decode env n u (k + 1)).publishes ≠ (benchmarkWith decode env n u k).publishes →
      (benchmarkWith decode env n u k).publishes = (benchmarkWith decode env n u k).received) := by
  obtain ⟨_, _, _, _, hctl⟩ := Inv_benchmarkWith decode env n u k
  show _ ∧ ((step decode env n (benchmarkWith decode env n u k)).publishes ≠ _ → _)
  generalize benchmarkWith decode env n u k = s at hctl
  cases hc : s.control with
  | loopHead =>
    rw [hc] at hctl
    exact ⟨Or.inl hctl.1, fun _ => hctl.1⟩
  | awaitReply start =>
    rw [hc] at hctl
    refine ⟨Or.inr hctl.1, fun h => absurd ?_ h⟩
    unfold step
    rw [hc]
    simp only [State.publishes]
    cases decode (env.delivery s.received) with
    | error e => rfl
    | ok p => cases hp : p.Error <;> simp [classify, hp]
  | returned r =>
    rw [hc] at hctl
    refine ⟨?_, fun h => absurd ?_ h⟩
    · cases r with
      | none => exact Or.inl hctl.1
      | some e => exact hctl.1
    · rw [step_returned decode env n s r hc]

/-- Witness for C10: the first step of a run publishes, from a state without an
outstanding request. -/
theorem one_outstanding_request_witness :
    (benchmark steadyEnv sampleUUID (0 + 1)).publishes ≠ (benchmark steadyEnv sampleUUID 0).publishes ∧
    (benchmark steadyEnv sampleUUID 0).publishes = (benchmark steadyEnv sampleUUID 0).received :=
  ⟨by decide,
    (one_outstanding_request parseResponse steadyEnv sampleUUID SAMPLES_SIZE 0).2 (by decide)⟩

end RTTClient
